import Mathlib

/-!
Verification of the `at86` TOEIC-platform repository: a shallow embedding of
the LLM key/model rotation manager (`tools/pipeline/common/rotation.py`), the
retry orchestrator and JSON repair pipeline (`tools/pipeline/common/llm.py`),
the hybrid retriever and RAG chain (`tools/rag/retriever/hybrid_retriever.py`,
`tools/rag/generator/rag_chain.py`) and the user-mistake analyzer
(`tools/rag/knowledge/user_analyzer.py`), together with theorems settling the
specification claims about those components.
-/

set_option maxRecDepth 10000

namespace AT86

/-! ## Rotation manager (`tools/pipeline/common/rotation.py`)

One provider pool entry: `{ keys: [{key, label}], models: [], key_idx, model_idx }`.
Keys are `(key_value, label)` pairs.  The in-memory state of the singleton
`RotationManager` consists of the provider table (an insertion-ordered dict,
modelled as an association list), the name of the active provider, and whether
a rotation callback is installed. -/

structure Pool where
  keys : List (String × String)
  models : List String
  key_idx : Nat
  model_idx : Nat
deriving Repr, DecidableEq

structure RMState where
  providers : List (String × Pool)
  active_provider : String
  has_callback : Bool
deriving Repr, DecidableEq

/-- Dict lookup `self.providers.get(name)`. -/
def lookupP : List (String × Pool) → String → Option Pool
  | [], _ => none
  | (m, q) :: t, n => if m = n then some q else lookupP t n

/-- Dict assignment `self.providers[name] = pool` (update in place or append). -/
def setP : List (String × Pool) → String → Pool → List (String × Pool)
  | [], n, p => [(n, p)]
  | (m, q) :: t, n, p => if m = n then (m, p) :: t else (m, q) :: setP t n p

/-- The active provider's cursor pair, for traces (0,0 when unconfigured). -/
def cursors (st : RMState) : Nat × Nat :=
  match lookupP st.providers st.active_provider with
  | some p => (p.key_idx, p.model_idx)
  | none => (0, 0)

/-- Errors surfaced by `RotationManager.get_current` (the source raises plain
`Exception`s carrying a message; the spec names the empty-pool failure
`PoolUnusableError`).  `indexErr` models the `IndexError` Python would raise
on an out-of-range cursor. -/
inductive RotationErr where
  | notConfigured
  | poolUnusable
  | indexErr
deriving Repr, DecidableEq

/-- The message attached to each `get_current` failure in the source. -/
def rotationErrMsg (active : String) : RotationErr → String
  | .notConfigured => "Provider " ++ active ++ " not configured."
  | .poolUnusable => "No API keys configured for " ++ active ++ "."
  | .indexErr => "list index out of range"

/-- `RotationManager.get_current` (rotation.py lines 162-172). -/
def get_current (st : RMState) : Except RotationErr (String × String × String) :=
  match lookupP st.providers st.active_provider with
  | none => .error .notConfigured
  | some p =>
    if p.keys = [] then .error .poolUnusable
    else
      match p.keys.get? p.key_idx, p.models.get? p.model_idx with
      | some kv, some m => .ok (kv.1, m, kv.2)
      | _, _ => .error .indexErr

/-- Result of one `rotate()` call: the returned boolean, the state afterwards,
whether `_save_to_db` ran, and whether the rotation callback was invoked. -/
structure RotateOut where
  ok : Bool
  st : RMState
  saved : Bool
  callbacked : Bool
deriving Repr, DecidableEq

/-- `RotationManager.rotate` (rotation.py lines 187-208). -/
def rotate (st : RMState) : RotateOut :=
  match lookupP st.providers st.active_provider with
  | none => ⟨false, st, false, false⟩
  | some p =>
    if p.keys = [] then ⟨false, st, false, false⟩
    else
      let m := p.model_idx + 1
      if m ≥ p.models.length then
        let k := p.key_idx + 1
        if k ≥ p.keys.length then
          let ps := setP st.providers st.active_provider { p with key_idx := 0, model_idx := 0 }
          ⟨false, { st with providers := ps }, true, false⟩
        else
          let ps := setP st.providers st.active_provider { p with key_idx := k, model_idx := 0 }
          ⟨true, { st with providers := ps }, true, st.has_callback⟩
      else
        let ps := setP st.providers st.active_provider { p with model_idx := m }
        ⟨true, { st with providers := ps }, true, st.has_callback⟩

/-- One entry of the `providers` list passed to `update_settings`. -/
structure PData where
  name : String
  keys : List (String × String)
  models : List String
deriving Repr, DecidableEq

/-- The `settings` dict passed to `update_settings`. -/
structure Settings where
  active_provider : Option String
  providers : List PData
deriving Repr, DecidableEq

/-- Processing of one provider entry inside `update_settings`
(rotation.py lines 140-158). -/
def updateOneProvider (ps : List (String × Pool)) (pd : PData) : List (String × Pool) :=
  let cur := lookupP ps pd.name
  let ki0 := match cur with | some p => p.key_idx | none => 0
  let mi0 := match cur with | some p => p.model_idx | none => 0
  let ki := if ki0 ≥ pd.keys.length then 0 else ki0
  let mi := if mi0 ≥ pd.models.length then 0 else mi0
  setP ps pd.name ⟨pd.keys, pd.models, ki, mi⟩

/-- `RotationManager.update_settings` (rotation.py lines 136-160). -/
def update_settings (st : RMState) (s : Settings) : RMState :=
  { st with
    active_provider := s.active_provider.getD st.active_provider,
    providers := s.providers.foldl updateOneProvider st.providers }

/-! ## JSON values and `safe_parse_json` (`tools/pipeline/common/llm.py` lines 9-41)

`safe_parse_json` layers `json.loads` with three repair stages: markdown-fence
extraction (`re.search` with pattern  three backticks, optional `json`, `\s*`,
a non-greedy group, `\s*`, three backticks, DOTALL), removal of trailing commas
(`re.sub` of a comma, `\s*` and a closing brace or bracket), and slicing
between the first opening brace and the last closing brace.

The JSON data model restricts numbers to integers (the claims exercise no
floating-point values) and represents objects as insertion-ordered key/value
lists; `loads` collapses duplicate keys last-wins, exactly as Python's `dict`
does.  Braces and backticks are written with `\x` escapes throughout. -/

/-- The left-brace character. -/
def lbr : Char := '\x7b'

/-- The right-brace character. -/
def rbr : Char := '\x7d'

/-- The backtick character. -/
def btk : Char := '\x60'

inductive Json where
  | null
  | bool (b : Bool)
  | num (n : Int)
  | str (s : List Char)
  | arr (elems : List Json)
  | obj (members : List (List Char × Json))

instance : Inhabited Json := ⟨Json.null⟩

/-- Hex digit used by the serializer's control-character escapes (lowercase,
as `json.dumps` emits). -/
def hexDig (n : Nat) : Char :=
  if n < 10 then Char.ofNat (48 + n) else Char.ofNat (87 + n)

/-- Value of a hex digit accepted after a backslash-u escape. -/
def hexVal (c : Char) : Option Nat :=
  if '0' ≤ c ∧ c ≤ '9' then some (c.toNat - 48)
  else if 'a' ≤ c ∧ c ≤ 'f' then some (c.toNat - 87)
  else if 'A' ≤ c ∧ c ≤ 'F' then some (c.toNat - 55)
  else none

/-- String-character escaping as performed by `json.dumps`. -/
def escapeChar (c : Char) : List Char :=
  if c = '"' then ['\\', '"']
  else if c = '\\' then ['\\', '\\']
  else if c = '\n' then ['\\', 'n']
  else if c = '\t' then ['\\', 't']
  else if c = '\r' then ['\\', 'r']
  else if c = '\x08' then ['\\', 'b']
  else if c = '\x0c' then ['\\', 'f']
  else if c.toNat < 32 then
    ['\\', 'u', '0', '0', hexDig (c.toNat / 16), hexDig (c.toNat % 16)]
  else [c]

def escapeStr : List Char → List Char
  | [] => []
  | c :: r => escapeChar c ++ escapeStr r

/-- Decimal digits, fuel-indexed so that the definition is structurally
recursive and evaluates inside the kernel. -/
def natDigsAux : Nat → Nat → List Char
  | 0, _ => []
  | fuel + 1, n =>
    if n < 10 then [Nat.digitChar n]
    else natDigsAux fuel (n / 10) ++ [Nat.digitChar (n % 10)]

/-- Decimal digits of a natural number, most significant first. -/
def natDigs (n : Nat) : List Char := natDigsAux (n + 1) n

theorem natDigsAux_irrel : ∀ n f1 f2, n < f1 → n < f2 →
    natDigsAux f1 n = natDigsAux f2 n := by
  intro n
  induction n using Nat.strong_induction_on with
  | _ n ih =>
    intro f1 f2 h1 h2
    cases f1 with
    | zero => omega
    | succ g1 =>
      cases f2 with
      | zero => omega
      | succ g2 =>
        rw [natDigsAux, natDigsAux]
        split
        · rfl
        · rename_i hge
          rw [ih (n / 10) (Nat.div_lt_self (by omega) (by omega)) g1 g2 (by omega) (by omega)]

/-- Unfolding equation for `natDigs`, matching the usual recursion. -/
theorem natDigs_eq (n : Nat) :
    natDigs n = if n < 10 then [Nat.digitChar n]
      else natDigs (n / 10) ++ [Nat.digitChar (n % 10)] := by
  rw [natDigs, natDigsAux]
  split
  · rfl
  · rw [natDigsAux_irrel (n / 10) n (n / 10 + 1) (by omega) (by omega)]
    rfl

/-- Decimal rendering of an integer. -/
def intChars (i : Int) : List Char :=
  if i < 0 then '-' :: natDigs i.natAbs else natDigs i.toNat

mutual

/-- Model of `json.dumps` with its default `", "` / `": "` separators. -/
def dumpsVal : Json → List Char
  | .null => "null".data
  | .bool b => if b then "true".data else "false".data
  | .num i => intChars i
  | .str s => '"' :: (escapeStr s ++ ['"'])
  | .arr [] => "[]".data
  | .arr (e :: es) => '[' :: ((dumpsVal e ++ dumpsElems es) ++ [']'])
  | .obj [] => [lbr, rbr]
  | .obj (m :: ms) => lbr :: ((dumpsMember m ++ dumpsMembers ms) ++ [rbr])

def dumpsMember : List Char × Json → List Char
  | (k, v) => '"' :: (escapeStr k ++ ('"' :: ':' :: ' ' :: dumpsVal v))

def dumpsElems : List Json → List Char
  | [] => []
  | e :: es => ',' :: ' ' :: (dumpsVal e ++ dumpsElems es)

def dumpsMembers : List (List Char × Json) → List Char
  | [] => []
  | m :: ms => ',' :: ' ' :: (dumpsMember m ++ dumpsMembers ms)

end

/-- Whitespace skipped by Python's `json` scanner (`' \t\n\r'`). -/
def isJsonWs (c : Char) : Bool :=
  c = ' ' || c = '\t' || c = '\n' || c = '\r'

def skipWs (l : List Char) : List Char := l.dropWhile isJsonWs

/-- Named escapes accepted after a backslash in a JSON string. -/
def unescChar (c : Char) : Option Char :=
  if c = '"' then some '"'
  else if c = '\\' then some '\\'
  else if c = '/' then some '/'
  else if c = 'b' then some '\x08'
  else if c = 'f' then some '\x0c'
  else if c = 'n' then some '\n'
  else if c = 'r' then some '\r'
  else if c = 't' then some '\t'
  else none

/-- JSON string-literal body (after the opening quote), strict mode: raw
control characters are rejected, escapes are decoded. -/
def parseStringBody : List Char → Option (List Char × List Char)
  | [] => none
  | '"' :: r => some ([], r)
  | '\\' :: 'u' :: h1 :: h2 :: h3 :: h4 :: r =>
    (match hexVal h1, hexVal h2, hexVal h3, hexVal h4 with
     | some a, some b, some c, some d =>
       (parseStringBody r).map
         (fun p => (Char.ofNat (((a * 16 + b) * 16 + c) * 16 + d) :: p.1, p.2))
     | _, _, _, _ => none)
  | '\\' :: e :: r =>
    (match unescChar e with
     | some u => (parseStringBody r).map (fun p => (u :: p.1, p.2))
     | none => none)
  | c :: r =>
    if c.toNat < 32 then none
    else (parseStringBody r).map (fun p => (c :: p.1, p.2))

def digitVal (c : Char) : Nat := c.toNat - 48

def parseDigitsAux (acc : Nat) : List Char → Nat × List Char
  | [] => (acc, [])
  | c :: r => if c.isDigit then parseDigitsAux (acc * 10 + digitVal c) r else (acc, c :: r)

/-- Integer literals (the model has no floats; a fractional part simply stops
the number and the surrounding context then fails). -/
def parseNum : List Char → Option (Int × List Char)
  | '-' :: c :: r =>
    if c.isDigit then
      let p := parseDigitsAux (digitVal c) r
      some (-(p.1 : Int), p.2)
    else none
  | c :: r =>
    if c.isDigit then
      let p := parseDigitsAux (digitVal c) r
      some ((p.1 : Int), p.2)
    else none
  | [] => none

/-- `dict(pairs)` update: replace the value at an existing key in place,
else append. -/
def insertMember : List (List Char × Json) → List Char → Json → List (List Char × Json)
  | [], k, v => [(k, v)]
  | (k0, v0) :: t, k, v =>
    if k0 = k then (k0, v) :: t else (k0, v0) :: insertMember t k v

/-- Duplicate keys collapse last-wins, as Python's `dict` does. -/
def collapseMembers (ms : List (List Char × Json)) : List (List Char × Json) :=
  ms.foldl (fun acc m => insertMember acc m.1 m.2) []

mutual

/-- Fuel-indexed model of Python's recursive JSON scanner (structurally
recursive on the fuel, so that it evaluates inside the kernel). -/
def parseVal : Nat → List Char → Option (Json × List Char)
  | 0, _ => none
  | fuel + 1, l =>
    match skipWs l with
    | [] => none
    | c :: r =>
      if c = lbr then
        (match skipWs r with
         | [] => none
         | d :: r2 =>
           if d = rbr then some (.obj [], r2)
           else (parseMembers fuel r).map (fun p => (Json.obj (collapseMembers p.1), p.2)))
      else if c = '[' then
        (match skipWs r with
         | [] => none
         | d :: r2 =>
           if d = ']' then some (.arr [], r2)
           else (parseElems fuel r).map (fun p => (Json.arr p.1, p.2)))
      else if c = '"' then
        (parseStringBody r).map (fun p => (Json.str p.1, p.2))
      else if c = 'n' then
        if ['u', 'l', 'l'].isPrefixOf r then some (.null, r.drop 3) else none
      else if c = 't' then
        if ['r', 'u', 'e'].isPrefixOf r then some (.bool true, r.drop 3) else none
      else if c = 'f' then
        if ['a', 'l', 's', 'e'].isPrefixOf r then some (.bool false, r.drop 4) else none
      else if c = '-' ∨ c.isDigit then
        (parseNum (c :: r)).map (fun p => (Json.num p.1, p.2))
      else none

def parseElems : Nat → List Char → Option (List Json × List Char)
  | 0, _ => none
  | fuel + 1, l =>
    (parseVal fuel l).bind (fun p =>
      match skipWs p.2 with
      | [] => none
      | d :: r2 =>
        if d = ',' then (parseElems fuel r2).map (fun q => (p.1 :: q.1, q.2))
        else if d = ']' then some ([p.1], r2)
        else none)

def parseMembers : Nat → List Char → Option (List (List Char × Json) × List Char)
  | 0, _ => none
  | fuel + 1, l =>
    match skipWs l with
    | [] => none
    | q :: r =>
      if q = '"' then
        (parseStringBody r).bind (fun kp =>
          match skipWs kp.2 with
          | [] => none
          | cc :: r3 =>
            if cc = ':' then
              (parseVal fuel r3).bind (fun vp =>
                match skipWs vp.2 with
                | [] => none
                | d :: r5 =>
                  if d = ',' then
                    (parseMembers fuel r5).map (fun q2 => ((kp.1, vp.1) :: q2.1, q2.2))
                  else if d = rbr then some ([(kp.1, vp.1)], r5)
                  else none)
            else none)
      else none

end

/-! Staged views of one unfolding of the scanner, used by the proofs. -/

/-- After an opening brace: empty object or member list. -/
def parseObjBody (fuel : Nat) (r : List Char) : List Char → Option (Json × List Char)
  | [] => none
  | d :: r2 =>
    if d = rbr then some (.obj [], r2)
    else (parseMembers fuel r).map (fun p => (Json.obj (collapseMembers p.1), p.2))

/-- After an opening bracket: empty array or element list. -/
def parseArrBody (fuel : Nat) (r : List Char) : List Char → Option (Json × List Char)
  | [] => none
  | d :: r2 =>
    if d = ']' then some (.arr [], r2)
    else (parseElems fuel r).map (fun p => (Json.arr p.1, p.2))

/-- Dispatch on the first non-whitespace character. -/
def parseValAux (fuel : Nat) : List Char → Option (Json × List Char)
  | [] => none
  | c :: r =>
    if c = lbr then parseObjBody fuel r (skipWs r)
    else if c = '[' then parseArrBody fuel r (skipWs r)
    else if c = '"' then
      (parseStringBody r).map (fun p => (Json.str p.1, p.2))
    else if c = 'n' then
      if ['u', 'l', 'l'].isPrefixOf r then some (.null, r.drop 3) else none
    else if c = 't' then
      if ['r', 'u', 'e'].isPrefixOf r then some (.bool true, r.drop 3) else none
    else if c = 'f' then
      if ['a', 'l', 's', 'e'].isPrefixOf r then some (.bool false, r.drop 4) else none
    else if c = '-' ∨ c.isDigit then
      (parseNum (c :: r)).map (fun p => (Json.num p.1, p.2))
    else none

/-- After one array element: comma and more elements, or the closing
bracket. -/
def parseElemsTail (fuel : Nat) (v : Json) : List Char → Option (List Json × List Char)
  | [] => none
  | d :: r2 =>
    if d = ',' then (parseElems fuel r2).map (fun q => (v :: q.1, q.2))
    else if d = ']' then some ([v], r2)
    else none

/-- After one member: comma and more members, or the closing brace. -/
def parseMembersTail (fuel : Nat) (k : List Char) (v : Json) :
    List Char → Option (List (List Char × Json) × List Char)
  | [] => none
  | d :: r5 =>
    if d = ',' then (parseMembers fuel r5).map (fun q => ((k, v) :: q.1, q.2))
    else if d = rbr then some ([(k, v)], r5)
    else none

/-- Then a colon and the member's value. -/
def parseMembersColon (fuel : Nat) (k : List Char) :
    List Char → Option (List (List Char × Json) × List Char)
  | [] => none
  | cc :: r3 =>
    if cc = ':' then
      (parseVal fuel r3).bind (fun vp => parseMembersTail fuel k vp.1 (skipWs vp.2))
    else none

/-- One member: quoted key first. -/
def parseMembersKey (fuel : Nat) : List Char → Option (List (List Char × Json) × List Char)
  | [] => none
  | q :: r =>
    if q = '"' then
      (parseStringBody r).bind (fun kp => parseMembersColon fuel kp.1 (skipWs kp.2))
    else none

/-- One unfolding of the value scanner in staged form. -/
theorem parseVal_succ (fuel : Nat) (l : List Char) :
    parseVal (fuel + 1) l = parseValAux fuel (skipWs l) := by
  rw [parseVal]
  cases h : skipWs l with
  | nil => rfl
  | cons c r =>
    simp only [parseValAux]
    by_cases h1 : c = lbr
    · subst h1
      rw [if_pos rfl]
      cases h2 : skipWs r with
      | nil => rfl
      | cons d r2 => rfl
    · rw [if_neg h1, if_neg h1]
      by_cases h2 : c = '['
      · subst h2
        rw [if_pos rfl]
        cases h3 : skipWs r with
        | nil => rfl
        | cons d r2 => rfl
      · rw [if_neg h2, if_neg h2]

/-- One unfolding of the element scanner in staged form. -/
theorem parseElems_succ (fuel : Nat) (l : List Char) :
    parseElems (fuel + 1) l =
      (parseVal fuel l).bind (fun p => parseElemsTail fuel p.1 (skipWs p.2)) := by
  rw [parseElems]
  cases hp : parseVal fuel l with
  | none => rfl
  | some p =>
    simp only [Option.some_bind]
    cases h : skipWs p.2 with
    | nil => rfl
    | cons d r2 => rfl

/-- One unfolding of the member scanner in staged form. -/
theorem parseMembers_succ (fuel : Nat) (l : List Char) :
    parseMembers (fuel + 1) l = parseMembersKey fuel (skipWs l) := by
  rw [parseMembers]
  cases h : skipWs l with
  | nil => rfl
  | cons q r =>
    simp only [parseMembersKey]
    by_cases h1 : q = '"'
    · subst h1
      rw [if_pos rfl, if_pos rfl]
      cases hs : parseStringBody r with
      | none => rfl
      | some kp =>
        simp only [Option.some_bind]
        cases h2 : skipWs kp.2 with
        | nil => rfl
        | cons cc r3 =>
          simp only [parseMembersColon]
          by_cases h3 : cc = ':'
          · subst h3
            rw [if_pos rfl, if_pos rfl]
            cases hv : parseVal fuel r3 with
            | none => rfl
            | some vp =>
              simp only [Option.some_bind]
              cases h4 : skipWs vp.2 with
              | nil => rfl
              | cons d r5 => rfl
          · rw [if_neg h3, if_neg h3]
    · rw [if_neg h1, if_neg h1]

/-- Model of `json.loads`: parse one value, then require only trailing
whitespace. -/
def loads (l : List Char) : Option Json :=
  match parseVal (l.length + 1) l with
  | some p => if skipWs p.2 = [] then some p.1 else none
  | none => none

/-! ### The repair stages -/

/-- Whitespace matched by the regex class backslash-s (ASCII part). -/
def isReWs (c : Char) : Bool :=
  c = ' ' || c = '\t' || c = '\n' || c = '\r' || c = '\x0b' || c = '\x0c'

def startsTriple (l : List Char) : Bool :=
  match l with
  | a :: b :: c :: _ => a = btk && b = btk && c = btk
  | _ => false

/-- Split at the first triple backtick: the part before it and the part
after it. -/
def splitAtTriple : List Char → Option (List Char × List Char)
  | [] => none
  | l@(c :: r) =>
    if startsTriple l then some ([], l.drop 3)
    else
      match splitAtTriple r with
      | some p => some (c :: p.1, p.2)
      | none => none

def trimEndWs (l : List Char) : List Char := (l.reverse.dropWhile isReWs).reverse

/-- Group 1 of the fence regex once an opening triple backtick has been
consumed: optional literal `json`, greedy whitespace, then the non-greedy body
up to the next triple backtick with trailing whitespace stripped. -/
def fenceInner (after : List Char) : Option (List Char) :=
  let a1 := if "json".data.isPrefixOf after then after.drop 4 else after
  let a2 := a1.dropWhile isReWs
  match splitAtTriple a2 with
  | some p => some (trimEndWs p.1)
  | none => none

/-- Model of `re.search` for the fence pattern: leftmost opening triple
backtick that is followed by a closing one. -/
def fenceExtract : List Char → Option (List Char)
  | [] => none
  | l@(_ :: r) =>
    if startsTriple l then
      match fenceInner (l.drop 3) with
      | some g => some g
      | none => fenceExtract r
    else fenceExtract r

theorem sizeOf_dropWhile_le (p : Char → Bool) (l : List Char) :
    sizeOf (l.dropWhile p) ≤ sizeOf l := by
  induction l with
  | nil => simp [List.dropWhile]
  | cons c r ih =>
    rw [List.dropWhile_cons]
    split
    · have : sizeOf r ≤ sizeOf (c :: r) := by simp
      omega
    · omega

/-- Fuel-indexed scan for `re.sub` of the trailing-comma pattern; every step
consumes at least one character, so `length + 1` fuel always suffices. -/
def removeTCAux : Nat → List Char → List Char
  | 0, l => l
  | _ + 1, [] => []
  | fuel + 1, c :: rest =>
    if c = ',' then
      match rest.dropWhile isReWs with
      | d :: r3 =>
        if d = rbr || d = ']' then d :: removeTCAux fuel r3
        else c :: removeTCAux fuel rest
      | [] => c :: rest
    else c :: removeTCAux fuel rest

/-- Model of `re.sub` removing a comma followed by whitespace and a closing
brace or bracket (scanning resumes after each replaced match). -/
def removeTC (l : List Char) : List Char := removeTCAux (l.length + 1) l

/-- No occurrence of the trailing-comma pattern anywhere in the text. -/
def patFree : List Char → Bool
  | [] => true
  | c :: rest =>
    if c = ',' then
      (match rest.dropWhile isReWs with
       | d :: _ => !(d = rbr || d = ']')
       | [] => true) && patFree rest
    else patFree rest

def firstIdxOf (c : Char) : List Char → Option Nat
  | [] => none
  | d :: r => if d = c then some 0 else (firstIdxOf c r).map (· + 1)

/-- `str.rfind`: highest index of the character. -/
def lastIdxOf (c : Char) (l : List Char) : Option Nat :=
  (firstIdxOf c l.reverse).map (fun i => l.length - 1 - i)

/-- Stage 4: slice from the first opening brace to the last closing brace. -/
def sliceBraces (l : List Char) : Option (List Char) :=
  match firstIdxOf lbr l, lastIdxOf rbr l with
  | some s, some e => some ((l.drop s).take (e + 1 - s))
  | _, _ => none

/-- Stage 2: parse of the fence-extracted block, when a fence matched. -/
def fenceStage (text : List Char) : Option Json :=
  (fenceExtract text).bind loads

/-- The text later stages work on: the fence body if a fence matched
(the source reassigns `text`), else the original text. -/
def repairTarget (text : List Char) : List Char :=
  (fenceExtract text).getD text

/-- Stage 3: parse after removing trailing commas. -/
def commaStage (text : List Char) : Option Json :=
  loads (removeTC (repairTarget text))

/-- Stage 4: parse the slice between the first opening brace and the last
closing brace of the repaired text. -/
def sliceStage (text : List Char) : Option Json :=
  (sliceBraces (removeTC (repairTarget text))).bind loads

/-- `safe_parse_json` (llm.py lines 9-41); `none` models a raised exception. -/
def safe_parse_json (text : List Char) : Option Json :=
  match loads text with
  | some v => some v
  | none =>
    match fenceStage text with
    | some v => some v
    | none =>
      match commaStage text with
      | some v => some v
      | none => sliceStage text

/-! ### Round-trip infrastructure -/

theorem skipWs_nil : skipWs [] = [] := rfl

theorem skipWs_cons_not {c : Char} (h : isJsonWs c = false) (l : List Char) :
    skipWs (c :: l) = c :: l := by
  simp [skipWs, List.dropWhile_cons, h]

theorem skipWs_append {pre : List Char} (h : pre.all isJsonWs = true) (l : List Char) :
    skipWs (pre ++ l) = skipWs l := by
  induction pre with
  | nil => rfl
  | cons c t ih =>
    simp only [List.all_cons, Bool.and_eq_true] at h
    have ht := ih h.2
    simp only [skipWs] at ht ⊢
    simp [List.dropWhile_cons, h.1, ht]

/-- Characters that can begin the serialization of a JSON value. -/
def startCh (c : Char) : Bool :=
  (c = lbr) || (c = '[') || (c = '"') || (c = 'n') || (c = 't') || (c = 'f') ||
  (c = '-') || c.isDigit

theorem digitChar_isDigit {m : Nat} (h : m < 10) : (Nat.digitChar m).isDigit = true := by
  revert h
  revert m
  decide

theorem natDigs_head : ∀ n : Nat, ∃ c t, natDigs n = c :: t ∧ c.isDigit = true := by
  intro n
  induction n using Nat.strong_induction_on with
  | _ n ih =>
    rw [natDigs_eq]
    split
    · exact ⟨_, _, rfl, digitChar_isDigit (by omega)⟩
    · obtain ⟨c, t, hct, hd⟩ := ih (n / 10) (Nat.div_lt_self (by omega) (by omega))
      exact ⟨c, t ++ [Nat.digitChar (n % 10)], by rw [hct]; rfl, hd⟩

theorem intChars_head : ∀ i : Int, ∃ c t,
    intChars i = c :: t ∧ (c = '-' ∨ c.isDigit = true) := by
  intro i
  rw [intChars]
  split
  · exact ⟨'-', _, rfl, Or.inl rfl⟩
  · obtain ⟨c, t, hct, hd⟩ := natDigs_head i.toNat
    exact ⟨c, t, hct, Or.inr hd⟩

theorem dumpsVal_head : ∀ v : Json, ∃ c t, dumpsVal v = c :: t ∧ startCh c = true := by
  intro v
  cases v with
  | null => exact ⟨'n', _, rfl, by decide⟩
  | bool b =>
    cases b
    · exact ⟨'f', _, rfl, by decide⟩
    · exact ⟨'t', _, rfl, by decide⟩
  | num i =>
    obtain ⟨c, t, hct, hd⟩ := intChars_head i
    refine ⟨c, t, by simp [dumpsVal, hct], ?_⟩
    rcases hd with h | h
    · subst h; decide
    · simp [startCh, h]
  | str s => exact ⟨'"', _, rfl, by decide⟩
  | arr es =>
    cases es
    · exact ⟨'[', _, rfl, by decide⟩
    · exact ⟨'[', _, rfl, by decide⟩
  | obj ms =>
    cases ms
    · exact ⟨lbr, _, rfl, by decide⟩
    · exact ⟨lbr, _, rfl, by decide⟩

theorem startCh_not_ws {c : Char} (h : startCh c = true) : isJsonWs c = false := by
  by_contra hw
  rw [Bool.not_eq_false] at hw
  simp only [isJsonWs, Bool.or_eq_true, decide_eq_true_eq] at hw
  rcases hw with ((hw | hw) | hw) | hw <;> subst hw <;> exact absurd h (by decide)

theorem startCh_ne {c : Char} (h : startCh c = true) :
    c ≠ ']' ∧ c ≠ rbr ∧ c ≠ ',' ∧ c ≠ ':' := by
  refine ⟨?_, ?_, ?_, ?_⟩ <;> rintro rfl <;> exact absurd h (by decide)

theorem numStart_ne {c : Char} (h : c = '-' ∨ c.isDigit = true) :
    c ≠ lbr ∧ c ≠ '[' ∧ c ≠ '"' ∧ c ≠ 'n' ∧ c ≠ 't' ∧ c ≠ 'f' := by
  refine ⟨?_, ?_, ?_, ?_, ?_, ?_⟩ <;> rintro rfl <;>
    rcases h with h | h <;> exact absurd h (by decide)

theorem hexVal_hexDig : ∀ x, x < 16 → hexVal (hexDig x) = some x := by decide

/-- One escaped character decodes back to itself. -/
theorem parseStringBody_escapeChar (c : Char) (l : List Char) :
    parseStringBody (escapeChar c ++ l) =
      (parseStringBody l).map (fun p => (c :: p.1, p.2)) := by
  by_cases h1 : c = '"'
  · subst h1; rfl
  by_cases h2 : c = '\\'
  · subst h2; rfl
  by_cases h3 : c = '\n'
  · subst h3; rfl
  by_cases h4 : c = '\t'
  · subst h4; rfl
  by_cases h5 : c = '\r'
  · subst h5; rfl
  by_cases h6 : c = '\x08'
  · subst h6; rfl
  by_cases h7 : c = '\x0c'
  · subst h7; rfl
  by_cases h8 : c.toNat < 32
  · rw [escapeChar, if_neg h1, if_neg h2, if_neg h3, if_neg h4, if_neg h5, if_neg h6,
      if_neg h7, if_pos h8]
    have hd : c.toNat / 16 < 16 := by omega
    have hm : c.toNat % 16 < 16 := by omega
    show parseStringBody
        ('\\' :: 'u' :: '0' :: '0' :: hexDig (c.toNat / 16) :: hexDig (c.toNat % 16) :: l) = _
    rw [parseStringBody]
    rw [hexVal_hexDig _ hd, hexVal_hexDig _ hm]
    have hv : hexVal '0' = some 0 := by decide
    rw [hv]
    have harith : ((0 * 16 + 0) * 16 + c.toNat / 16) * 16 + c.toNat % 16 = c.toNat := by omega
    dsimp only
    simp only [harith, Char.ofNat_toNat]
  · rw [escapeChar, if_neg h1, if_neg h2, if_neg h3, if_neg h4, if_neg h5, if_neg h6,
      if_neg h7, if_neg h8]
    show parseStringBody (c :: l) = _
    rw [parseStringBody.eq_def]
    split
    · simp_all
    · simp_all
    · rename_i heq; exact absurd (congrArg (fun x => x.headI) heq) (by simpa using h2)
    · rename_i e r heq
      have : c = '\\' := by
        have := congrArg List.headI heq
        simpa using this
      exact absurd this h2
    · rename_i heq
      injection heq with hc hl
      subst hc
      subst hl
      rw [if_neg h8]

/-- A serialized string literal body decodes back to the original string. -/
theorem parseStringBody_escapeStr (s : List Char) (rest : List Char) :
    parseStringBody (escapeStr s ++ '"' :: rest) = some (s, rest) := by
  induction s with
  | nil => rfl
  | cons c t ih =>
    rw [escapeStr, List.append_assoc, parseStringBody_escapeChar, ih]
    rfl

/-- Whether a list does not continue a decimal literal. -/
def numStop (l : List Char) : Bool :=
  match l with
  | [] => true
  | c :: _ => !c.isDigit

theorem parseDigitsAux_stop {rest : List Char} (h : numStop rest = true) (acc : Nat) :
    parseDigitsAux acc rest = (acc, rest) := by
  cases rest with
  | nil => rfl
  | cons c r =>
    simp only [numStop, Bool.not_eq_true'] at h
    simp [parseDigitsAux, h]

theorem parseDigitsAux_digits {ds : List Char} (h : ds.all Char.isDigit = true)
    (acc : Nat) (rest : List Char) :
    parseDigitsAux acc (ds ++ rest) =
      parseDigitsAux (ds.foldl (fun a c => a * 10 + digitVal c) acc) rest := by
  induction ds generalizing acc with
  | nil => rfl
  | cons c t ih =>
    simp only [List.all_cons, Bool.and_eq_true] at h
    simp [parseDigitsAux, h.1, ih h.2, List.foldl_cons]

theorem natDigs_all_digits : ∀ n, (natDigs n).all Char.isDigit = true := by
  intro n
  induction n using Nat.strong_induction_on with
  | _ n ih =>
    rw [natDigs_eq]
    split
    · rename_i h
      simp [digitChar_isDigit h]
    · rw [List.all_append]
      simp [ih (n / 10) (Nat.div_lt_self (by omega) (by omega)),
        digitChar_isDigit (Nat.mod_lt n (by omega))]

theorem digitVal_digitChar {m : Nat} (h : m < 10) : digitVal (Nat.digitChar m) = m := by
  revert h
  revert m
  decide

theorem natDigs_foldl : ∀ n acc, (natDigs n).foldl (fun a c => a * 10 + digitVal c) acc =
    acc * 10 ^ (natDigs n).length + n := by
  intro n
  induction n using Nat.strong_induction_on with
  | _ n ih =>
    intro acc
    rw [natDigs_eq]
    split
    · rename_i h
      simp [digitVal_digitChar h]
    · rename_i h
      rw [List.foldl_append, List.length_append]
      rw [ih (n / 10) (Nat.div_lt_self (by omega) (by omega))]
      simp only [List.foldl_cons, List.foldl_nil, List.length_cons, List.length_nil]
      rw [digitVal_digitChar (Nat.mod_lt n (by omega))]
      rw [pow_succ]
      have hmod : 10 * (n / 10) + n % 10 = n := Nat.div_add_mod n 10
      calc (acc * 10 ^ (natDigs (n / 10)).length + n / 10) * 10 + n % 10
          = acc * (10 ^ (natDigs (n / 10)).length * 10) + (10 * (n / 10) + n % 10) := by
            ring
        _ = acc * (10 ^ (natDigs (n / 10)).length * 10) + n := by rw [hmod]

theorem parseDigitsAux_natDigs {rest : List Char} (h : numStop rest = true) (n : Nat) :
    parseDigitsAux 0 (natDigs n ++ rest) = (n, rest) := by
  rw [parseDigitsAux_digits (natDigs_all_digits n), natDigs_foldl, parseDigitsAux_stop h]
  simp

theorem parseDigitsAux_natDigs_head {rest : List Char} {n : Nat} {c : Char} {t : List Char}
    (h : numStop rest = true) (hct : natDigs n = c :: t) :
    parseDigitsAux (digitVal c) (t ++ rest) = (n, rest) := by
  have hfold := parseDigitsAux_natDigs h n
  rw [hct] at hfold
  simp only [List.cons_append, parseDigitsAux] at hfold
  have hd : c.isDigit = true := by
    have := natDigs_all_digits n
    rw [hct] at this
    simp only [List.all_cons, Bool.and_eq_true] at this
    exact this.1
  rw [if_pos hd] at hfold
  simpa using hfold

/-- A serialized integer parses back to itself when the continuation cannot
extend the literal. -/
theorem parseNum_intChars {rest : List Char} (h : numStop rest = true) (i : Int) :
    parseNum (intChars i ++ rest) = some (i, rest) := by
  rw [intChars]
  split
  · rename_i hneg
    obtain ⟨c, t, hct, hd⟩ := natDigs_head i.natAbs
    rw [hct]
    show parseNum ('-' :: c :: (t ++ rest)) = some (i, rest)
    rw [parseNum, if_pos hd]
    rw [parseDigitsAux_natDigs_head h hct]
    simp only [Option.some.injEq, Prod.mk.injEq, and_true]
    omega
  · rename_i hneg
    obtain ⟨c, t, hct, hd⟩ := natDigs_head i.toNat
    rw [hct]
    show parseNum (c :: (t ++ rest)) = some (i, rest)
    have hcne : c ≠ '-' := by
      rintro rfl; exact absurd hd (by decide)
    rw [parseNum.eq_def]
    split
    · rename_i heq
      have : c = '-' := by
        have := congrArg List.headI heq
        simpa using this
      exact absurd this hcne
    · rename_i heq
      injection heq with hc hl
      subst hc
      rw [if_pos hd]
      rw [← hl, parseDigitsAux_natDigs_head h hct]
      simp only [Option.some.injEq, Prod.mk.injEq, and_true]
      omega
    · rename_i heq
      exact absurd (congrArg List.length heq) (by simp)

/-! ### Well-formedness, parse depth, duplicate-key collapse -/

def keysNodup : List (List Char) → Bool
  | [] => true
  | k :: t => (if k ∈ t then false else true) && keysNodup t

mutual

/-- A JSON value is well formed when every object has pairwise distinct keys
(automatic for Python dicts). -/
def wfVal : Json → Bool
  | .null => true
  | .bool _ => true
  | .num _ => true
  | .str _ => true
  | .arr es => wfElems es
  | .obj ms => keysNodup (ms.map Prod.fst) && wfMembers ms

def wfElems : List Json → Bool
  | [] => true
  | e :: es => wfVal e && wfElems es

def wfMembers : List (List Char × Json) → Bool
  | [] => true
  | m :: ms => wfVal m.2 && wfMembers ms

end

mutual

/-- Recursion depth the fuel-indexed scanner needs for a value. -/
def depthVal : Json → Nat
  | .null => 1
  | .bool _ => 1
  | .num _ => 1
  | .str _ => 1
  | .arr es => 1 + depthElems es
  | .obj ms => 1 + depthMembers ms

def depthElems : List Json → Nat
  | [] => 1
  | e :: es => 1 + max (depthVal e) (depthElems es)

def depthMembers : List (List Char × Json) → Nat
  | [] => 1
  | m :: ms => 1 + max (depthVal m.2) (depthMembers ms)

end

theorem insertMember_append {acc : List (List Char × Json)} {k : List Char}
    (h : k ∉ acc.map Prod.fst) (v : Json) :
    insertMember acc k v = acc ++ [(k, v)] := by
  induction acc with
  | nil => rfl
  | cons m t ih =>
    simp only [List.map_cons, List.mem_cons, not_or] at h
    rw [insertMember]
    rw [if_neg (fun e => h.1 e.symm)]
    rw [ih h.2]
    rfl

theorem foldl_insertMember {ms : List (List Char × Json)} :
    ∀ acc : List (List Char × Json),
    (∀ k ∈ acc.map Prod.fst, k ∉ ms.map Prod.fst) →
    keysNodup (ms.map Prod.fst) = true →
    ms.foldl (fun acc m => insertMember acc m.1 m.2) acc = acc ++ ms := by
  induction ms with
  | nil => intro acc _ _; simp
  | cons m t ih =>
    intro acc hdisj hnd
    simp only [List.map_cons, keysNodup, Bool.and_eq_true] at hnd
    have hknotin : m.1 ∉ acc.map Prod.fst := by
      intro hmem
      exact hdisj m.1 hmem (by simp)
    rw [List.foldl_cons, insertMember_append hknotin]
    rw [ih (acc ++ [(m.1, m.2)]) ?_ hnd.2]
    · simp
    · intro k hk
      simp only [List.map_append, List.mem_append] at hk
      rcases hk with hk | hk
      · intro hkt
        exact hdisj k hk (by simp [hkt])
      · simp only [List.map_cons, List.map_nil, List.mem_singleton] at hk
        subst hk
        intro hmem
        have := hnd.1
        split at this
        · exact absurd this (by simp)
        · exact absurd hmem (by assumption)

/-- With pairwise-distinct keys, `dict(pairs)` preserves the pair list. -/
theorem collapseMembers_nodup {ms : List (List Char × Json)}
    (h : keysNodup (ms.map Prod.fst) = true) : collapseMembers ms = ms := by
  rw [collapseMembers, foldl_insertMember [] (by simp) h]
  rfl

/-! ### Parser dispatch lemmas -/

theorem isPrefixOf_self_append (a l : List Char) : a.isPrefixOf (a ++ l) = true := by
  induction a with
  | nil => simp [List.isPrefixOf]
  | cons c t ih => simp [List.isPrefixOf, ih]

theorem numStart_not_ws {c : Char} (h : c = '-' ∨ c.isDigit = true) : isJsonWs c = false := by
  by_contra hw
  rw [Bool.not_eq_false] at hw
  simp only [isJsonWs, Bool.or_eq_true, decide_eq_true_eq] at hw
  rcases hw with ((hw | hw) | hw) | hw <;> subst hw <;>
    rcases h with h | h <;> exact absurd h (by decide)

theorem parseValAux_lbr (fuel : Nat) (r : List Char) :
    parseValAux fuel (lbr :: r) = parseObjBody fuel r (skipWs r) := by
  simp [parseValAux]

theorem parseValAux_lbrack (fuel : Nat) (r : List Char) :
    parseValAux fuel ('[' :: r) = parseArrBody fuel r (skipWs r) := by
  simp [parseValAux, lbr]

theorem parseValAux_quote (fuel : Nat) (r : List Char) :
    parseValAux fuel ('"' :: r) =
      (parseStringBody r).map (fun p => (Json.str p.1, p.2)) := by
  simp [parseValAux, lbr]

theorem parseValAux_null (fuel : Nat) (rest : List Char) :
    parseValAux fuel ('n' :: ('u' :: 'l' :: 'l' :: rest)) = some (.null, rest) := by
  simp [parseValAux, lbr, List.isPrefixOf]

theorem parseValAux_true (fuel : Nat) (rest : List Char) :
    parseValAux fuel ('t' :: ('r' :: 'u' :: 'e' :: rest)) = some (.bool true, rest) := by
  simp [parseValAux, lbr, List.isPrefixOf]

theorem parseValAux_false (fuel : Nat) (rest : List Char) :
    parseValAux fuel ('f' :: ('a' :: 'l' :: 's' :: 'e' :: rest)) = some (.bool false, rest) := by
  simp [parseValAux, lbr, List.isPrefixOf]

theorem parseValAux_num (fuel : Nat) {c : Char} (r : List Char)
    (h : c = '-' ∨ c.isDigit = true) :
    parseValAux fuel (c :: r) = (parseNum (c :: r)).map (fun p => (Json.num p.1, p.2)) := by
  obtain ⟨h1, h2, h3, h4, h5, h6⟩ := numStart_ne h
  simp only [parseValAux]
  rw [if_neg h1, if_neg h2, if_neg h3, if_neg h4, if_neg h5, if_neg h6, if_pos h]

theorem parseObjBody_close (fuel : Nat) (r r2 : List Char) :
    parseObjBody fuel r (rbr :: r2) = some (.obj [], r2) := by
  simp [parseObjBody]

theorem parseObjBody_open (fuel : Nat) (r : List Char) {d : Char} (r2 : List Char)
    (h : d ≠ rbr) :
    parseObjBody fuel r (d :: r2) =
      (parseMembers fuel r).map (fun p => (Json.obj (collapseMembers p.1), p.2)) := by
  simp only [parseObjBody]
  rw [if_neg h]

theorem parseArrBody_close (fuel : Nat) (r r2 : List Char) :
    parseArrBody fuel r (']' :: r2) = some (.arr [], r2) := by
  simp [parseArrBody]

theorem parseArrBody_open (fuel : Nat) (r : List Char) {d : Char} (r2 : List Char)
    (h : d ≠ ']') :
    parseArrBody fuel r (d :: r2) =
      (parseElems fuel r).map (fun p => (Json.arr p.1, p.2)) := by
  simp only [parseArrBody]
  rw [if_neg h]

theorem parseElemsTail_comma (fuel : Nat) (v : Json) (r2 : List Char) :
    parseElemsTail fuel v (',' :: r2) =
      (parseElems fuel r2).map (fun q => (v :: q.1, q.2)) := by
  simp [parseElemsTail]

theorem parseElemsTail_close (fuel : Nat) (v : Json) (r2 : List Char) :
    parseElemsTail fuel v (']' :: r2) = some ([v], r2) := by
  simp [parseElemsTail]

theorem parseMembersKey_quote (fuel : Nat) (r : List Char) :
    parseMembersKey fuel ('"' :: r) =
      (parseStringBody r).bind (fun kp => parseMembersColon fuel kp.1 (skipWs kp.2)) := by
  simp [parseMembersKey]

theorem parseMembersColon_colon (fuel : Nat) (k : List Char) (r3 : List Char) :
    parseMembersColon fuel k (':' :: r3) =
      (parseVal fuel r3).bind (fun vp => parseMembersTail fuel k vp.1 (skipWs vp.2)) := by
  simp [parseMembersColon]

theorem parseMembersTail_comma (fuel : Nat) (k : List Char) (v : Json) (r5 : List Char) :
    parseMembersTail fuel k v (',' :: r5) =
      (parseMembers fuel r5).map (fun q => ((k, v) :: q.1, q.2)) := by
  simp [parseMembersTail]

theorem parseMembersTail_close (fuel : Nat) (k : List Char) (v : Json) (r5 : List Char) :
    parseMembersTail fuel k v (rbr :: r5) = some ([(k, v)], r5) := by
  simp [parseMembersTail, rbr]

/-! ### The round-trip theorem: `loads` inverts `dumps` -/

theorem one_le_depthVal (v : Json) : 1 ≤ depthVal v := by
  cases v <;> simp [depthVal]

theorem one_le_depthElems (es : List Json) : 1 ≤ depthElems es := by
  cases es <;> simp [depthElems]

theorem one_le_depthMembers (ms : List (List Char × Json)) : 1 ≤ depthMembers ms := by
  cases ms <;> simp [depthMembers]

theorem depthElems_bound {e : Json} {es : List Json} {fuel : Nat}
    (h : depthElems (e :: es) ≤ fuel + 1) :
    depthVal e ≤ fuel ∧ depthElems es ≤ fuel := by
  rw [depthElems] at h
  constructor
  · have := le_max_left (depthVal e) (depthElems es); omega
  · have := le_max_right (depthVal e) (depthElems es); omega

theorem depthMembers_bound {k : List Char} {v : Json} {ms : List (List Char × Json)} {fuel : Nat}
    (h : depthMembers ((k, v) :: ms) ≤ fuel + 1) :
    depthVal v ≤ fuel ∧ depthMembers ms ≤ fuel := by
  have h : 1 + max (depthVal v) (depthMembers ms) ≤ fuel + 1 := by
    rw [depthMembers] at h; exact h
  constructor
  · have := le_max_left (depthVal v) (depthMembers ms); omega
  · have := le_max_right (depthVal v) (depthMembers ms); omega

theorem numStop_cons {c : Char} (l : List Char) (h : c.isDigit = false) :
    numStop (c :: l) = true := by
  simp [numStop, h]

theorem numStop_dumpsElems (es : List Json) (rest : List Char) :
    numStop (dumpsElems es ++ (']' :: rest)) = true := by
  cases es with
  | nil => exact numStop_cons _ (by decide)
  | cons e es => exact numStop_cons _ (by decide)

theorem numStop_dumpsMembers (ms : List (List Char × Json)) (rest : List Char) :
    numStop (dumpsMembers ms ++ (rbr :: rest)) = true := by
  cases ms with
  | nil => exact numStop_cons _ (by decide)
  | cons m ms => exact numStop_cons _ (by decide)

theorem parse_dumps : ∀ fuel : Nat,
    (∀ v pre rest, pre.all isJsonWs = true → wfVal v = true → numStop rest = true →
       depthVal v ≤ fuel →
       parseVal fuel (pre ++ (dumpsVal v ++ rest)) = some (v, rest)) ∧
    (∀ e es pre rest, pre.all isJsonWs = true → wfVal e = true → wfElems es = true →
       depthElems (e :: es) ≤ fuel →
       parseElems fuel (pre ++ (dumpsVal e ++ (dumpsElems es ++ (']' :: rest)))) =
         some (e :: es, rest)) ∧
    (∀ k v ms pre rest, pre.all isJsonWs = true → wfVal v = true → wfMembers ms = true →
       depthMembers ((k, v) :: ms) ≤ fuel →
       parseMembers fuel (pre ++ (dumpsMember (k, v) ++ (dumpsMembers ms ++ (rbr :: rest)))) =
         some ((k, v) :: ms, rest)) := by
  intro fuel
  induction fuel with
  | zero =>
    refine ⟨?_, ?_, ?_⟩
    · intro v _ _ _ _ _ hd
      have := one_le_depthVal v; omega
    · intro e es _ _ _ _ _ hd
      have := one_le_depthElems (e :: es); omega
    · intro k v ms _ _ _ _ _ hd
      have := one_le_depthMembers ((k, v) :: ms); omega
  | succ fuel ih =>
    obtain ⟨ih1, ih2, ih3⟩ := ih
    refine ⟨?_, ?_, ?_⟩
    · -- values
      intro v pre rest hpre hwf hstop hd
      have hunf : parseVal (fuel + 1) (pre ++ (dumpsVal v ++ rest)) =
          parseValAux fuel (skipWs (pre ++ (dumpsVal v ++ rest))) :=
        parseVal_succ fuel _
      rw [hunf, skipWs_append hpre]
      cases v with
      | null =>
        rw [show dumpsVal .null ++ rest = 'n' :: ('u' :: 'l' :: 'l' :: rest) from rfl]
        rw [skipWs_cons_not (by decide)]
        exact parseValAux_null fuel rest
      | bool b =>
        cases b
        · rw [show dumpsVal (.bool false) ++ rest =
              'f' :: ('a' :: 'l' :: 's' :: 'e' :: rest) from rfl]
          rw [skipWs_cons_not (by decide)]
          exact parseValAux_false fuel rest
        · rw [show dumpsVal (.bool true) ++ rest =
              't' :: ('r' :: 'u' :: 'e' :: rest) from rfl]
          rw [skipWs_cons_not (by decide)]
          exact parseValAux_true fuel rest
      | num i =>
        obtain ⟨c, t, hct, hcd⟩ := intChars_head i
        rw [show dumpsVal (.num i) = intChars i from rfl, hct, List.cons_append]
        rw [skipWs_cons_not (numStart_not_ws hcd)]
        rw [parseValAux_num fuel _ hcd]
        rw [← List.cons_append, ← hct, parseNum_intChars hstop]
        rfl
      | str s =>
        have hsh : dumpsVal (.str s) ++ rest = '"' :: (escapeStr s ++ ('"' :: rest)) := by
          show ('"' :: (escapeStr s ++ ['"'])) ++ rest = _
          simp
        rw [hsh, skipWs_cons_not (by decide), parseValAux_quote, parseStringBody_escapeStr]
        rfl
      | arr es =>
        cases es with
        | nil =>
          rw [show dumpsVal (.arr []) ++ rest = '[' :: (']' :: rest) from rfl]
          rw [skipWs_cons_not (by decide), parseValAux_lbrack]
          rw [skipWs_cons_not (by decide)]
          exact parseArrBody_close fuel _ rest
        | cons e es =>
          have hsh : dumpsVal (.arr (e :: es)) ++ rest =
              '[' :: (dumpsVal e ++ (dumpsElems es ++ (']' :: rest))) := by
            show ('[' :: ((dumpsVal e ++ dumpsElems es) ++ [']'])) ++ rest = _
            simp
          rw [hsh, skipWs_cons_not (by decide), parseValAux_lbrack]
          obtain ⟨c0, t0, hct0, hst0⟩ := dumpsVal_head e
          have hr : dumpsVal e ++ (dumpsElems es ++ (']' :: rest)) =
              c0 :: (t0 ++ (dumpsElems es ++ (']' :: rest))) := by
            rw [hct0]; simp
          rw [hr, skipWs_cons_not (startCh_not_ws hst0)]
          rw [parseArrBody_open fuel _ _ (startCh_ne hst0).1]
          rw [← hr]
          rw [show wfVal (.arr (e :: es)) = (wfVal e && wfElems es) from rfl] at hwf
          rw [Bool.and_eq_true] at hwf
          have hdep : depthElems (e :: es) ≤ fuel := by
            rw [show depthVal (.arr (e :: es)) = 1 + depthElems (e :: es) from rfl] at hd
            omega
          have := ih2 e es [] rest (by decide) hwf.1 hwf.2 hdep
          rw [List.nil_append] at this
          rw [this]
          rfl
      | obj ms =>
        cases ms with
        | nil =>
          rw [show dumpsVal (.obj []) ++ rest = lbr :: (rbr :: rest) from rfl]
          rw [skipWs_cons_not (by decide), parseValAux_lbr]
          rw [skipWs_cons_not (by decide)]
          exact parseObjBody_close fuel _ rest
        | cons m ms =>
          obtain ⟨k, v⟩ := m
          have hsh : dumpsVal (.obj ((k, v) :: ms)) ++ rest =
              lbr :: (dumpsMember (k, v) ++ (dumpsMembers ms ++ (rbr :: rest))) := by
            show (lbr :: ((dumpsMember (k, v) ++ dumpsMembers ms) ++ [rbr])) ++ rest = _
            simp
          rw [hsh, skipWs_cons_not (by decide), parseValAux_lbr]
          have hmh : dumpsMember (k, v) ++ (dumpsMembers ms ++ (rbr :: rest)) =
              '"' :: ((escapeStr k ++ ('"' :: ':' :: ' ' :: dumpsVal v)) ++
                (dumpsMembers ms ++ (rbr :: rest))) := by
            show ('"' :: (escapeStr k ++ ('"' :: ':' :: ' ' :: dumpsVal v))) ++ _ = _
            simp
          rw [hmh, skipWs_cons_not (by decide)]
          rw [parseObjBody_open fuel _ _ (by decide)]
          rw [← hmh]
          rw [show wfVal (.obj ((k, v) :: ms)) =
              (keysNodup (((k, v) :: ms).map Prod.fst) && wfMembers ((k, v) :: ms))
              from rfl] at hwf
          rw [Bool.and_eq_true] at hwf
          rw [show wfMembers ((k, v) :: ms) = (wfVal v && wfMembers ms) from rfl] at hwf
          have hwf2 := hwf.2
          rw [Bool.and_eq_true] at hwf2
          have hdep : depthMembers ((k, v) :: ms) ≤ fuel := by
            rw [show depthVal (.obj ((k, v) :: ms)) = 1 + depthMembers ((k, v) :: ms)
              from rfl] at hd
            omega
          have := ih3 k v ms [] rest (by decide) hwf2.1 hwf2.2 hdep
          rw [List.nil_append] at this
          rw [this]
          simp only [Option.map_some']
          rw [collapseMembers_nodup hwf.1]
    · -- array elements
      intro e es pre rest hpre hwfe hwfes hdep
      have hunf : parseElems (fuel + 1) (pre ++ (dumpsVal e ++ (dumpsElems es ++ (']' :: rest)))) =
          (parseVal fuel (pre ++ (dumpsVal e ++ (dumpsElems es ++ (']' :: rest))))).bind
            (fun p => parseElemsTail fuel p.1 (skipWs p.2)) :=
        parseElems_succ fuel _
      rw [hunf]
      have hbound := depthElems_bound hdep
      rw [ih1 e pre _ hpre hwfe (numStop_dumpsElems es rest) hbound.1]
      simp only [Option.some_bind]
      cases es with
      | nil =>
        rw [show dumpsElems [] ++ (']' :: rest) = ']' :: rest from rfl]
        rw [skipWs_cons_not (by decide)]
        exact parseElemsTail_close fuel e rest
      | cons e2 es2 =>
        have hsh : dumpsElems (e2 :: es2) ++ (']' :: rest) =
            ',' :: (' ' :: (dumpsVal e2 ++ (dumpsElems es2 ++ (']' :: rest)))) := by
          show (',' :: ' ' :: (dumpsVal e2 ++ dumpsElems es2)) ++ (']' :: rest) = _
          simp
        rw [hsh, skipWs_cons_not (by decide), parseElemsTail_comma]
        rw [show wfElems (e2 :: es2) = (wfVal e2 && wfElems es2) from rfl,
          Bool.and_eq_true] at hwfes
        have hdep2 : depthElems (e2 :: es2) ≤ fuel := by
          rw [depthElems] at hdep
          have := le_max_right (depthVal e) (depthElems (e2 :: es2))
          omega
        have := ih2 e2 es2 [' '] rest (by decide) hwfes.1 hwfes.2 hdep2
        rw [List.singleton_append] at this
        rw [this]
        rfl
    · -- object members
      intro k v ms pre rest hpre hwfv hwfms hdep
      have hunf : parseMembers (fuel + 1)
            (pre ++ (dumpsMember (k, v) ++ (dumpsMembers ms ++ (rbr :: rest)))) =
          parseMembersKey fuel
            (skipWs (pre ++ (dumpsMember (k, v) ++ (dumpsMembers ms ++ (rbr :: rest)))))  :=
        parseMembers_succ fuel _
      rw [hunf, skipWs_append hpre]
      have hmh : dumpsMember (k, v) ++ (dumpsMembers ms ++ (rbr :: rest)) =
          '"' :: (escapeStr k ++
            ('"' :: (':' :: (' ' :: (dumpsVal v ++ (dumpsMembers ms ++ (rbr :: rest))))))) := by
        show ('"' :: (escapeStr k ++ ('"' :: ':' :: ' ' :: dumpsVal v))) ++ _ = _
        simp
      rw [hmh, skipWs_cons_not (by decide), parseMembersKey_quote, parseStringBody_escapeStr]
      simp only [Option.some_bind]
      rw [skipWs_cons_not (by decide), parseMembersColon_colon]
      have hbound := depthMembers_bound hdep
      have hval := ih1 v [' '] (dumpsMembers ms ++ (rbr :: rest)) (by decide) hwfv
        (numStop_dumpsMembers ms rest) hbound.1
      rw [List.singleton_append] at hval
      rw [hval]
      simp only [Option.some_bind]
      cases ms with
      | nil =>
        rw [show dumpsMembers [] ++ (rbr :: rest) = rbr :: rest from rfl]
        rw [skipWs_cons_not (by decide)]
        exact parseMembersTail_close fuel k v rest
      | cons m2 ms2 =>
        obtain ⟨k2, v2⟩ := m2
        have hsh : dumpsMembers ((k2, v2) :: ms2) ++ (rbr :: rest) =
            ',' :: (' ' :: (dumpsMember (k2, v2) ++ (dumpsMembers ms2 ++ (rbr :: rest)))) := by
          show (',' :: ' ' :: (dumpsMember (k2, v2) ++ dumpsMembers ms2)) ++ (rbr :: rest) = _
          simp
        rw [hsh, skipWs_cons_not (by decide), parseMembersTail_comma]
        rw [show wfMembers ((k2, v2) :: ms2) = (wfVal v2 && wfMembers ms2) from rfl,
          Bool.and_eq_true] at hwfms
        have hdep2 : depthMembers ((k2, v2) :: ms2) ≤ fuel := by
          rw [depthMembers] at hdep
          have := le_max_right (depthVal v) (depthMembers ((k2, v2) :: ms2))
          omega
        have := ih3 k2 v2 ms2 [' '] rest (by decide) hwfms.1 hwfms.2 hdep2
        rw [List.singleton_append] at this
        rw [this]
        rfl

/-- Combined size-indexed bound: the scanner depth a value needs is at most
its serialized length plus one. -/
theorem depth_le_combined : ∀ n : Nat,
    (∀ v : Json, sizeOf v ≤ n → depthVal v ≤ (dumpsVal v).length + 1) ∧
    (∀ (e : Json) (es : List Json), sizeOf (e :: es) ≤ n →
       depthElems (e :: es) ≤ (dumpsVal e).length + (dumpsElems es).length + 2) ∧
    (∀ (k : List Char) (v : Json) (ms : List (List Char × Json)),
       sizeOf ((k, v) :: ms) ≤ n →
       depthMembers ((k, v) :: ms) ≤
         (dumpsMember (k, v)).length + (dumpsMembers ms).length + 2) := by
  intro n
  induction n using Nat.strong_induction_on with
  | _ n ih =>
    refine ⟨?_, ?_, ?_⟩
    · intro v hsz
      cases v with
      | null => simp [depthVal, dumpsVal]
      | bool b => cases b <;> simp [depthVal, dumpsVal]
      | num i => simp [depthVal]
      | str s0 => simp [depthVal]
      | arr es =>
        cases es with
        | nil => simp [depthVal, depthElems, dumpsVal]
        | cons e es2 =>
          have hlt : sizeOf (e :: es2) < n := by
            have : sizeOf (Json.arr (e :: es2)) = 1 + sizeOf (e :: es2) := by simp
            omega
          have hq := (ih (sizeOf (e :: es2)) hlt).2.1 e es2 (le_refl _)
          have hlen : (dumpsVal (Json.arr (e :: es2))).length =
              2 + ((dumpsVal e).length + (dumpsElems es2).length) := by
            show ('[' :: ((dumpsVal e ++ dumpsElems es2) ++ [']'])).length = _
            simp
            omega
          rw [show depthVal (.arr (e :: es2)) = 1 + depthElems (e :: es2) from rfl, hlen]
          omega
      | obj ms =>
        cases ms with
        | nil => simp [depthVal, depthMembers, dumpsVal]
        | cons m ms2 =>
          obtain ⟨k, v⟩ := m
          have hlt : sizeOf ((k, v) :: ms2) < n := by
            have : sizeOf (Json.obj ((k, v) :: ms2)) = 1 + sizeOf ((k, v) :: ms2) := by simp
            omega
          have hq := (ih (sizeOf ((k, v) :: ms2)) hlt).2.2 k v ms2 (le_refl _)
          have hlen : (dumpsVal (Json.obj ((k, v) :: ms2))).length =
              2 + ((dumpsMember (k, v)).length + (dumpsMembers ms2).length) := by
            show (lbr :: ((dumpsMember (k, v) ++ dumpsMembers ms2) ++ [rbr])).length = _
            simp
            omega
          rw [show depthVal (.obj ((k, v) :: ms2)) = 1 + depthMembers ((k, v) :: ms2)
            from rfl, hlen]
          omega
    · intro e es hsz
      have he : sizeOf e < n := by
        have : sizeOf (e :: es) = 1 + sizeOf e + sizeOf es := by simp
        have hse : 0 < sizeOf es := by cases es <;> simp <;> omega
        omega
      have hP := (ih (sizeOf e) he).1 e (le_refl _)
      rw [show depthElems (e :: es) = 1 + max (depthVal e) (depthElems es) from rfl]
      cases es with
      | nil =>
        have : depthElems ([] : List Json) = 1 := rfl
        have hmax := Nat.max_le.mpr (And.intro hP (by omega : depthElems ([] : List Json) ≤ (dumpsVal e).length + 1))
        omega
      | cons e2 es2 =>
        have hlt2 : sizeOf (e2 :: es2) < n := by
          have h1 : sizeOf (e :: e2 :: es2) = 1 + sizeOf e + sizeOf (e2 :: es2) := by simp
          have h2 : 0 < sizeOf e := by cases e <;> simp <;> omega
          omega
        have hq := (ih (sizeOf (e2 :: es2)) hlt2).2.1 e2 es2 (le_refl _)
        have hlen : (dumpsElems (e2 :: es2)).length =
            2 + ((dumpsVal e2).length + (dumpsElems es2).length) := by
          show (',' :: ' ' :: (dumpsVal e2 ++ dumpsElems es2)).length = _
          simp
          omega
        have hc1 : depthVal e ≤ (dumpsVal e).length + (dumpsElems (e2 :: es2)).length + 1 := by
          omega
        have hc2 : depthElems (e2 :: es2) ≤
            (dumpsVal e).length + (dumpsElems (e2 :: es2)).length + 1 := by
          omega
        have hmax := Nat.max_le.mpr (And.intro hc1 hc2)
        omega
    · intro k v ms hsz
      have hv : sizeOf v < n := by
        have h1 : sizeOf ((k, v) :: ms) = 1 + sizeOf (k, v) + sizeOf ms := by simp
        have h2 : sizeOf (k, v) = 1 + sizeOf k + sizeOf v := by simp
        have h3 : 0 < sizeOf ms := by cases ms <;> simp <;> omega
        omega
      have hP := (ih (sizeOf v) hv).1 v (le_refl _)
      have hmemlen : (dumpsVal v).length + 1 ≤ (dumpsMember (k, v)).length := by
        show _ ≤ ('"' :: (escapeStr k ++ ('"' :: ':' :: ' ' :: dumpsVal v))).length
        simp
        omega
      rw [show depthMembers ((k, v) :: ms) = 1 + max (depthVal v) (depthMembers ms) from rfl]
      cases ms with
      | nil =>
        have : depthMembers ([] : List (List Char × Json)) = 1 := rfl
        have hmax := Nat.max_le.mpr (And.intro hP
          (by omega : depthMembers ([] : List (List Char × Json)) ≤ (dumpsVal v).length + 1))
        omega
      | cons m2 ms2 =>
        obtain ⟨k2, v2⟩ := m2
        have hlt2 : sizeOf ((k2, v2) :: ms2) < n := by
          have h1 : sizeOf ((k, v) :: (k2, v2) :: ms2) =
              1 + sizeOf (k, v) + sizeOf ((k2, v2) :: ms2) := by simp
          have h2 : 0 < sizeOf (k, v) := by simp
          omega
        have hq := (ih (sizeOf ((k2, v2) :: ms2)) hlt2).2.2 k2 v2 ms2 (le_refl _)
        have hlen : (dumpsMembers ((k2, v2) :: ms2)).length =
            2 + ((dumpsMember (k2, v2)).length + (dumpsMembers ms2).length) := by
          show (',' :: ' ' :: (dumpsMember (k2, v2) ++ dumpsMembers ms2)).length = _
          simp
          omega
        have hc1 : depthVal v ≤
            (dumpsMember (k, v)).length + (dumpsMembers ((k2, v2) :: ms2)).length + 1 := by
          omega
        have hc2 : depthMembers ((k2, v2) :: ms2) ≤
            (dumpsMember (k, v)).length + (dumpsMembers ((k2, v2) :: ms2)).length + 1 := by
          omega
        have hmax := Nat.max_le.mpr (And.intro hc1 hc2)
        omega

theorem depthVal_le_length (v : Json) : depthVal v ≤ (dumpsVal v).length + 1 :=
  (depth_le_combined (sizeOf v)).1 v (le_refl _)

/-- `json.loads` inverts `json.dumps` on every well-formed value. -/
theorem loads_dumps {v : Json} (h : wfVal v = true) : loads (dumpsVal v) = some v := by
  rw [loads]
  have hp := (parse_dumps ((dumpsVal v).length + 1)).1 v [] [] (by decide) h (by decide)
    (depthVal_le_length v)
  rw [List.nil_append, List.append_nil] at hp
  rw [hp]
  rfl

/-! ### Failure lemmas: inputs the scanner rejects -/

/-- The claim's trailing-comma transformation: insert one comma just before
the final character (a closing brace or bracket). -/
def tcAdd (l : List Char) : List Char :=
  match l.getLast? with
  | some c => l.dropLast ++ [',', c]
  | none => l

/-- The claim's markdown fence wrapping of a JSON text. -/
def fenceWrap (l : List Char) : List Char :=
  btk :: btk :: btk :: 'j' :: 's' :: 'o' :: 'n' :: '\n' :: (l ++ ('\n' :: btk :: btk :: btk :: []))

/-- No triple backtick starts anywhere in the text. -/
def noTrip : List Char → Bool
  | [] => true
  | l@(_ :: r) => !startsTriple l && noTrip r

theorem parseValAux_bad (fuel : Nat) {c : Char} (r : List Char) (h : startCh c = false) :
    parseValAux fuel (c :: r) = none := by
  simp only [startCh, Bool.or_eq_false_iff, decide_eq_false_iff_not] at h
  obtain ⟨⟨⟨⟨⟨⟨⟨h1, h2⟩, h3⟩, h4⟩, h5⟩, h6⟩, h7⟩, h8⟩ := h
  have h9 : ¬(c = '-' ∨ c.isDigit = true) := by
    rintro (he | hd)
    · exact h7 he
    · rw [h8] at hd; cases hd
  simp only [parseValAux]
  rw [if_neg h1, if_neg h2, if_neg h3, if_neg h4, if_neg h5, if_neg h6, if_neg h9]

theorem parseVal_bad {fuel : Nat} {l : List Char} {c : Char} {r : List Char}
    (hskip : skipWs l = c :: r) (h : startCh c = false) :
    parseVal fuel l = none := by
  cases fuel with
  | zero => rfl
  | succ g =>
    rw [parseVal_succ g l, hskip]
    exact parseValAux_bad g r h

/-- A text whose first non-whitespace character cannot start a JSON value is
rejected by `json.loads`. -/
theorem loads_bad {l : List Char} {c : Char} {r : List Char}
    (hskip : skipWs l = c :: r) (h : startCh c = false) :
    loads l = none := by
  rw [loads, parseVal_bad hskip h]

theorem parseMembers_rbrace_none (fuel : Nat) (rest : List Char) :
    parseMembers fuel (rbr :: rest) = none := by
  cases fuel with
  | zero => rfl
  | succ g =>
    rw [parseMembers_succ g _, skipWs_cons_not (by decide)]
    simp [parseMembersKey, rbr]

theorem parseElems_rbracket_none (fuel : Nat) (rest : List Char) :
    parseElems fuel (']' :: rest) = none := by
  cases fuel with
  | zero => rfl
  | succ g =>
    have hskip : skipWs (']' :: rest) = ']' :: rest := skipWs_cons_not (by decide) rest
    rw [parseElems_succ g _, parseVal_bad hskip (by decide)]
    rfl

/-- A member list followed by a comma directly before the closing brace is
rejected (Python's strict scanner forbids trailing commas). -/
theorem parseMembers_trailing_comma :
    ∀ (ms : List (List Char × Json)) (k : List Char) (v : Json) (fuel : Nat)
      (pre rest : List Char),
    pre.all isJsonWs = true → wfVal v = true → wfMembers ms = true →
    depthMembers ((k, v) :: ms) ≤ fuel →
    parseMembers fuel
      (pre ++ (dumpsMember (k, v) ++ (dumpsMembers ms ++ (',' :: rbr :: rest)))) = none := by
  intro ms
  induction ms with
  | nil =>
    intro k v fuel pre rest hpre hwfv _ hdep
    cases fuel with
    | zero =>
      have := one_le_depthMembers [(k, v)]
      omega
    | succ g =>
      have hunf : parseMembers (g + 1)
            (pre ++ (dumpsMember (k, v) ++ (dumpsMembers [] ++ (',' :: rbr :: rest)))) =
          parseMembersKey g
            (skipWs (pre ++ (dumpsMember (k, v) ++
              (dumpsMembers [] ++ (',' :: rbr :: rest))))) :=
        parseMembers_succ g _
      rw [hunf, skipWs_append hpre]
      have hmh : dumpsMember (k, v) ++ (dumpsMembers [] ++ (',' :: rbr :: rest)) =
          '"' :: (escapeStr k ++
            ('"' :: (':' :: (' ' :: (dumpsVal v ++ (',' :: rbr :: rest)))))) := by
        show ('"' :: (escapeStr k ++ ('"' :: ':' :: ' ' :: dumpsVal v))) ++ _ = _
        simp [dumpsMembers]
      rw [hmh, skipWs_cons_not (by decide), parseMembersKey_quote, parseStringBody_escapeStr]
      simp only [Option.some_bind]
      rw [skipWs_cons_not (by decide), parseMembersColon_colon]
      have hdv : depthVal v ≤ g := by
        have := depthMembers_bound hdep
        exact this.1
      have hval := (parse_dumps g).1 v [' '] (',' :: rbr :: rest) (by decide) hwfv
        (numStop_cons _ (by decide)) hdv
      rw [List.singleton_append] at hval
      rw [hval]
      simp only [Option.some_bind]
      rw [skipWs_cons_not (by decide), parseMembersTail_comma, parseMembers_rbrace_none]
      rfl
  | cons m2 ms2 ih =>
    intro k v fuel pre rest hpre hwfv hwfms hdep
    obtain ⟨k2, v2⟩ := m2
    cases fuel with
    | zero =>
      have := one_le_depthMembers ((k, v) :: (k2, v2) :: ms2)
      omega
    | succ g =>
      have hunf : parseMembers (g + 1)
            (pre ++ (dumpsMember (k, v) ++
              (dumpsMembers ((k2, v2) :: ms2) ++ (',' :: rbr :: rest)))) =
          parseMembersKey g
            (skipWs (pre ++ (dumpsMember (k, v) ++
              (dumpsMembers ((k2, v2) :: ms2) ++ (',' :: rbr :: rest))))) :=
        parseMembers_succ g _
      rw [hunf, skipWs_append hpre]
      have hmh : dumpsMember (k, v) ++
            (dumpsMembers ((k2, v2) :: ms2) ++ (',' :: rbr :: rest)) =
          '"' :: (escapeStr k ++
            ('"' :: (':' :: (' ' :: (dumpsVal v ++
              (dumpsMembers ((k2, v2) :: ms2) ++ (',' :: rbr :: rest))))))) := by
        show ('"' :: (escapeStr k ++ ('"' :: ':' :: ' ' :: dumpsVal v))) ++ _ = _
        simp
      rw [hmh, skipWs_cons_not (by decide), parseMembersKey_quote, parseStringBody_escapeStr]
      simp only [Option.some_bind]
      rw [skipWs_cons_not (by decide), parseMembersColon_colon]
      have hbound := depthMembers_bound hdep
      have hval := (parse_dumps g).1 v [' ']
        (dumpsMembers ((k2, v2) :: ms2) ++ (',' :: rbr :: rest)) (by decide) hwfv
        (numStop_cons _ (by decide)) hbound.1
      rw [List.singleton_append] at hval
      rw [hval]
      simp only [Option.some_bind]
      have hsh : dumpsMembers ((k2, v2) :: ms2) ++ (',' :: rbr :: rest) =
          ',' :: (' ' :: (dumpsMember (k2, v2) ++
            (dumpsMembers ms2 ++ (',' :: rbr :: rest)))) := by
        show (',' :: ' ' :: (dumpsMember (k2, v2) ++ dumpsMembers ms2)) ++ _ = _
        simp
      rw [hsh, skipWs_cons_not (by decide), parseMembersTail_comma]
      rw [show wfMembers ((k2, v2) :: ms2) = (wfVal v2 && wfMembers ms2) from rfl,
        Bool.and_eq_true] at hwfms
      have hdep2 : depthMembers ((k2, v2) :: ms2) ≤ g := by
        have h1 : 1 + max (depthVal v) (depthMembers ((k2, v2) :: ms2)) ≤ g + 1 := by
          rw [depthMembers] at hdep; exact hdep
        have := le_max_right (depthVal v) (depthMembers ((k2, v2) :: ms2))
        omega
      have hih := ih k2 v2 g [' '] rest (by decide) hwfms.1 hwfms.2 hdep2
      rw [List.singleton_append] at hih
      rw [hih]
      rfl

/-- An element list followed by a comma directly before the closing bracket
is rejected. -/
theorem parseElems_trailing_comma :
    ∀ (es : List Json) (e : Json) (fuel : Nat) (pre rest : List Char),
    pre.all isJsonWs = true → wfVal e = true → wfElems es = true →
    depthElems (e :: es) ≤ fuel →
    parseElems fuel
      (pre ++ (dumpsVal e ++ (dumpsElems es ++ (',' :: ']' :: rest)))) = none := by
  intro es
  induction es with
  | nil =>
    intro e fuel pre rest hpre hwfe _ hdep
    cases fuel with
    | zero =>
      have := one_le_depthElems [e]
      omega
    | succ g =>
      have hunf : parseElems (g + 1)
            (pre ++ (dumpsVal e ++ (dumpsElems [] ++ (',' :: ']' :: rest)))) =
          (parseVal g (pre ++ (dumpsVal e ++ (dumpsElems [] ++ (',' :: ']' :: rest))))).bind
            (fun p => parseElemsTail g p.1 (skipWs p.2)) :=
        parseElems_succ g _
      rw [hunf]
      have hdv : depthVal e ≤ g := (depthElems_bound hdep).1
      have hns : numStop (dumpsElems [] ++ (',' :: ']' :: rest)) = true :=
        numStop_cons _ (by decide)
      rw [(parse_dumps g).1 e pre (dumpsElems [] ++ (',' :: ']' :: rest)) hpre hwfe hns hdv]
      simp only [Option.some_bind]
      rw [show dumpsElems [] ++ (',' :: ']' :: rest) = ',' :: (']' :: rest) from rfl]
      rw [skipWs_cons_not (by decide), parseElemsTail_comma, parseElems_rbracket_none]
      rfl
  | cons e2 es2 ih =>
    intro e fuel pre rest hpre hwfe hwfes hdep
    cases fuel with
    | zero =>
      have := one_le_depthElems (e :: e2 :: es2)
      omega
    | succ g =>
      have hunf : parseElems (g + 1)
            (pre ++ (dumpsVal e ++ (dumpsElems (e2 :: es2) ++ (',' :: ']' :: rest)))) =
          (parseVal g (pre ++ (dumpsVal e ++
            (dumpsElems (e2 :: es2) ++ (',' :: ']' :: rest))))).bind
            (fun p => parseElemsTail g p.1 (skipWs p.2)) :=
        parseElems_succ g _
      rw [hunf]
      have hdv : depthVal e ≤ g := (depthElems_bound hdep).1
      have hns : numStop (dumpsElems (e2 :: es2) ++ (',' :: ']' :: rest)) = true :=
        numStop_cons _ (by decide)
      rw [(parse_dumps g).1 e pre (dumpsElems (e2 :: es2) ++ (',' :: ']' :: rest))
        hpre hwfe hns hdv]
      simp only [Option.some_bind]
      have hsh : dumpsElems (e2 :: es2) ++ (',' :: ']' :: rest) =
          ',' :: (' ' :: (dumpsVal e2 ++ (dumpsElems es2 ++ (',' :: ']' :: rest)))) := by
        show (',' :: ' ' :: (dumpsVal e2 ++ dumpsElems es2)) ++ _ = _
        simp
      rw [hsh, skipWs_cons_not (by decide), parseElemsTail_comma]
      rw [show wfElems (e2 :: es2) = (wfVal e2 && wfElems es2) from rfl,
        Bool.and_eq_true] at hwfes
      have hdep2 : depthElems (e2 :: es2) ≤ g := by
        have h1 : 1 + max (depthVal e) (depthElems (e2 :: es2)) ≤ g + 1 := by
          rw [depthElems] at hdep; exact hdep
        have := le_max_right (depthVal e) (depthElems (e2 :: es2))
        omega
      have hih := ih e2 g [' '] rest (by decide) hwfes.1 hwfes.2 hdep2
      rw [List.singleton_append] at hih
      rw [hih]
      rfl

/-! ### Behaviour of the repair stages on serialized values -/

theorem tcAdd_concat (l : List Char) (a : Char) : tcAdd (l ++ [a]) = l ++ [',', a] := by
  simp [tcAdd, List.getLast?_concat, List.dropLast_concat]

theorem loads_tcAdd_obj (ms : List (List Char × Json))
    (h : wfVal (Json.obj ms) = true) :
    loads (tcAdd (dumpsVal (Json.obj ms))) = none := by
  cases ms with
  | nil => rfl
  | cons m ms2 =>
    obtain ⟨k, v⟩ := m
    have hshape : dumpsVal (Json.obj ((k, v) :: ms2)) =
        (lbr :: (dumpsMember (k, v) ++ dumpsMembers ms2)) ++ [rbr] := by
      show lbr :: ((dumpsMember (k, v) ++ dumpsMembers ms2) ++ [rbr]) = _
      simp
    have htc : tcAdd (dumpsVal (Json.obj ((k, v) :: ms2))) =
        lbr :: (dumpsMember (k, v) ++ (dumpsMembers ms2 ++ (',' :: rbr :: []))) := by
      rw [hshape, tcAdd_concat]
      simp
    rw [htc, loads]
    set L := (lbr :: (dumpsMember (k, v) ++ (dumpsMembers ms2 ++ (',' :: rbr :: [])))).length
      with hL
    have hL1 : L = (dumpsMember (k, v) ++ (dumpsMembers ms2 ++ (',' :: rbr :: []))).length + 1 := by
      simp [hL]
    rw [show L + 1 = ((dumpsMember (k, v) ++ (dumpsMembers ms2 ++ (',' :: rbr :: []))).length + 1) + 1
      from by omega]
    rw [parseVal_succ, skipWs_cons_not (by decide), parseValAux_lbr]
    have hct0 : dumpsMember (k, v) ++ (dumpsMembers ms2 ++ (',' :: rbr :: [])) =
        '"' :: ((escapeStr k ++ ('"' :: ':' :: ' ' :: dumpsVal v)) ++
          (dumpsMembers ms2 ++ (',' :: rbr :: []))) := by
      show ('"' :: (escapeStr k ++ ('"' :: ':' :: ' ' :: dumpsVal v))) ++ _ = _
      simp
    rw [hct0, skipWs_cons_not (by decide), parseObjBody_open _ _ _ (by decide)]
    rw [← hct0]
    rw [show wfVal (Json.obj ((k, v) :: ms2)) =
        (keysNodup (((k, v) :: ms2).map Prod.fst) && wfMembers ((k, v) :: ms2)) from rfl,
      Bool.and_eq_true] at h
    have h2 := h.2
    rw [show wfMembers ((k, v) :: ms2) = (wfVal v && wfMembers ms2) from rfl,
      Bool.and_eq_true] at h2
    have hdep : depthMembers ((k, v) :: ms2) ≤
        (dumpsMember (k, v) ++ (dumpsMembers ms2 ++ (',' :: rbr :: []))).length + 1 := by
      have hd := depthVal_le_length (Json.obj ((k, v) :: ms2))
      rw [show depthVal (Json.obj ((k, v) :: ms2)) = 1 + depthMembers ((k, v) :: ms2)
        from rfl] at hd
      have : (dumpsVal (Json.obj ((k, v) :: ms2))).length ≤
          (dumpsMember (k, v) ++ (dumpsMembers ms2 ++ (',' :: rbr :: []))).length + 1 := by
        rw [hshape]
        simp
      omega
    have hnone := parseMembers_trailing_comma ms2 k v
      ((dumpsMember (k, v) ++ (dumpsMembers ms2 ++ (',' :: rbr :: []))).length + 1)
      [] [] (by decide) h2.1 h2.2 hdep
    rw [List.nil_append] at hnone
    rw [hnone]
    rfl

theorem loads_tcAdd_arr (es : List Json) (h : wfVal (Json.arr es) = true) :
    loads (tcAdd (dumpsVal (Json.arr es))) = none := by
  cases es with
  | nil => rfl
  | cons e es2 =>
    have hshape : dumpsVal (Json.arr (e :: es2)) =
        ('[' :: (dumpsVal e ++ dumpsElems es2)) ++ [']'] := by
      show '[' :: ((dumpsVal e ++ dumpsElems es2) ++ [']']) = _
      simp
    have htc : tcAdd (dumpsVal (Json.arr (e :: es2))) =
        '[' :: (dumpsVal e ++ (dumpsElems es2 ++ (',' :: ']' :: []))) := by
      rw [hshape, tcAdd_concat]
      simp
    rw [htc, loads]
    set L := ('[' :: (dumpsVal e ++ (dumpsElems es2 ++ (',' :: ']' :: [])))).length with hL
    have hL1 : L = (dumpsVal e ++ (dumpsElems es2 ++ (',' :: ']' :: []))).length + 1 := by
      simp [hL]
    rw [show L + 1 = ((dumpsVal e ++ (dumpsElems es2 ++ (',' :: ']' :: []))).length + 1) + 1
      from by omega]
    rw [parseVal_succ, skipWs_cons_not (by decide), parseValAux_lbrack]
    obtain ⟨c0, t0, hct0, hst0⟩ := dumpsVal_head e
    have hr : dumpsVal e ++ (dumpsElems es2 ++ (',' :: ']' :: [])) =
        c0 :: (t0 ++ (dumpsElems es2 ++ (',' :: ']' :: []))) := by
      rw [hct0]; simp
    rw [hr, skipWs_cons_not (startCh_not_ws hst0),
      parseArrBody_open _ _ _ (startCh_ne hst0).1, ← hr]
    rw [show wfVal (Json.arr (e :: es2)) = wfElems (e :: es2) from rfl,
      show wfElems (e :: es2) = (wfVal e && wfElems es2) from rfl, Bool.and_eq_true] at h
    have hdep : depthElems (e :: es2) ≤
        (dumpsVal e ++ (dumpsElems es2 ++ (',' :: ']' :: []))).length + 1 := by
      have hd := depthVal_le_length (Json.arr (e :: es2))
      rw [show depthVal (Json.arr (e :: es2)) = 1 + depthElems (e :: es2) from rfl] at hd
      have : (dumpsVal (Json.arr (e :: es2))).length ≤
          (dumpsVal e ++ (dumpsElems es2 ++ (',' :: ']' :: []))).length + 1 := by
        rw [hshape]
        simp
      omega
    have hnone := parseElems_trailing_comma es2 e
      ((dumpsVal e ++ (dumpsElems es2 ++ (',' :: ']' :: []))).length + 1)
      [] [] (by decide) h.1 h.2 hdep
    rw [List.nil_append] at hnone
    rw [hnone]
    rfl

theorem dropWhile_append_cons {p : Char → Bool} {l : List Char} {y : Char} {ys : List Char}
    (h : l.dropWhile p = y :: ys) (t : List Char) :
    (l ++ t).dropWhile p = y :: (ys ++ t) := by
  induction l with
  | nil => simp at h
  | cons c r ih =>
    rw [List.dropWhile_cons] at h
    rw [List.cons_append, List.dropWhile_cons]
    split at h
    · rename_i hp
      rw [if_pos hp]
      exact ih h
    · rename_i hp
      rw [if_neg hp]
      injection h with h1 h2
      rw [h1, h2]

theorem dropWhile_append_nil {p : Char → Bool} {l : List Char}
    (h : l.dropWhile p = []) (t : List Char) :
    (l ++ t).dropWhile p = t.dropWhile p := by
  induction l with
  | nil => rfl
  | cons c r ih =>
    rw [List.dropWhile_cons] at h
    rw [List.cons_append, List.dropWhile_cons]
    split at h
    · rename_i hp
      rw [if_pos hp]
      exact ih h
    · cases h

theorem removeTCAux_patFree : ∀ (l : List Char) (fuel : Nat), patFree l = true →
    removeTCAux fuel l = l := by
  intro l
  induction l with
  | nil => intro fuel _; cases fuel <;> rfl
  | cons c rest ih =>
    intro fuel hp
    cases fuel with
    | zero => rfl
    | succ g =>
      rw [removeTCAux]
      rw [patFree] at hp
      split at hp
      · rename_i hc
        rw [if_pos hc]
        rw [Bool.and_eq_true] at hp
        cases hd : rest.dropWhile isReWs with
        | nil => rfl
        | cons d r3 =>
          have hguard := hp.1
          rw [hd] at hguard
          simp only [Bool.not_eq_true'] at hguard
          show (if (decide (d = rbr) || decide (d = ']')) = true then d :: removeTCAux g r3
            else c :: removeTCAux g rest) = c :: rest
          rw [if_neg (by rw [hguard]; exact Bool.false_ne_true)]
          rw [ih g hp.2]
      · rename_i hc
        rw [if_neg hc, ih g hp]

/-- Under pattern freedom the trailing-comma substitution is the identity. -/
theorem removeTC_patFree {l : List Char} (h : patFree l = true) : removeTC l = l :=
  removeTCAux_patFree l (l.length + 1) h

theorem removeTCAux_tcAdd : ∀ (init : List Char) (c : Char) (fuel : Nat),
    (c = rbr ∨ c = ']') → patFree (init ++ [c]) = true → init.length + 2 ≤ fuel →
    removeTCAux fuel (init ++ [',', c]) = init ++ [c] := by
  intro init
  induction init with
  | nil =>
    intro c fuel hc hp hf
    cases fuel with
    | zero => omega
    | succ g =>
      rw [List.nil_append, removeTCAux, if_pos rfl]
      have hnws : isReWs c = false := by
        rcases hc with rfl | rfl <;> decide
      rw [show List.dropWhile isReWs [c] = [c] from by simp [List.dropWhile_cons, hnws]]
      show (if (decide (c = rbr) || decide (c = ']')) = true then c :: removeTCAux g []
        else ',' :: removeTCAux g [c]) = [] ++ [c]
      rw [if_pos (by rcases hc with rfl | rfl <;> decide)]
      have hz : removeTCAux g ([] : List Char) = [] := by cases g <;> rfl
      rw [hz]
      rfl
  | cons x init2 ih =>
    intro c fuel hc hp hf
    cases fuel with
    | zero => simp at hf
    | succ g =>
      rw [List.cons_append, removeTCAux]
      by_cases hx : x = ','
      · rw [if_pos hx]
        rw [List.cons_append, patFree, if_pos hx, Bool.and_eq_true] at hp
        cases hdw : init2.dropWhile isReWs with
        | nil =>
          exfalso
          have hg := hp.1
          rw [dropWhile_append_nil hdw [c]] at hg
          have hnws : isReWs c = false := by
            rcases hc with rfl | rfl <;> decide
          rw [show List.dropWhile isReWs [c] = [c] from by
            simp [List.dropWhile_cons, hnws]] at hg
          rcases hc with rfl | rfl <;> simp at hg
        | cons y ys =>
          rw [dropWhile_append_cons hdw [',', c]]
          have hg := hp.1
          rw [dropWhile_append_cons hdw [c]] at hg
          simp only [Bool.not_eq_true'] at hg
          show (if (decide (y = rbr) || decide (y = ']')) = true
              then y :: removeTCAux g (ys ++ [',', c])
            else x :: removeTCAux g (init2 ++ [',', c])) = x :: init2 ++ [c]
          rw [if_neg (by rw [hg]; exact Bool.false_ne_true)]
          rw [ih c g hc hp.2 (by simp only [List.length_cons] at hf; omega)]
          rfl
      · rw [if_neg hx]
        rw [List.cons_append, patFree, if_neg hx] at hp
        rw [ih c g hc hp (by simp only [List.length_cons] at hf; omega)]
        rfl

/-- The substitution removes exactly the inserted trailing comma when the
original text is pattern free. -/
theorem removeTC_tcAdd {init : List Char} {c : Char}
    (hc : c = rbr ∨ c = ']') (hp : patFree (init ++ [c]) = true) :
    removeTC (init ++ [',', c]) = init ++ [c] := by
  rw [removeTC]
  exact removeTCAux_tcAdd init c _ hc hp (by simp)

/-! ### Fence extraction on wrapped serializations -/

theorem startCh_not_reWs {c : Char} (h : startCh c = true) : isReWs c = false := by
  by_contra hw
  rw [Bool.not_eq_false] at hw
  simp only [isReWs, Bool.or_eq_true, decide_eq_true_eq] at hw
  rcases hw with ((((hw | hw) | hw) | hw) | hw) | hw <;> subst hw <;>
    exact absurd h (by decide)

theorem isDigit_not_reWs {c : Char} (h : c.isDigit = true) : isReWs c = false := by
  by_contra hw
  rw [Bool.not_eq_false] at hw
  simp only [isReWs, Bool.or_eq_true, decide_eq_true_eq] at hw
  rcases hw with ((((hw | hw) | hw) | hw) | hw) | hw <;> subst hw <;>
    exact absurd h (by decide)

theorem natDigs_last (n : Nat) :
    ∃ init d, natDigs n = init ++ [d] ∧ d.isDigit = true := by
  rw [natDigs_eq]
  split
  · rename_i h
    exact ⟨[], Nat.digitChar n, rfl, digitChar_isDigit h⟩
  · exact ⟨natDigs (n / 10), Nat.digitChar (n % 10), rfl,
      digitChar_isDigit (Nat.mod_lt n (by omega))⟩

/-- Every serialization ends in a non-whitespace character. -/
theorem dumpsVal_concat (v : Json) :
    ∃ init d, dumpsVal v = init ++ [d] ∧ isReWs d = false := by
  cases v with
  | null => exact ⟨['n', 'u', 'l'], 'l', rfl, by decide⟩
  | bool b =>
    cases b
    · exact ⟨['f', 'a', 'l', 's'], 'e', rfl, by decide⟩
    · exact ⟨['t', 'r', 'u'], 'e', rfl, by decide⟩
  | num i =>
    rw [show dumpsVal (.num i) = intChars i from rfl, intChars]
    split
    · obtain ⟨init, d, hd, hdig⟩ := natDigs_last i.natAbs
      exact ⟨'-' :: init, d, by rw [hd]; rfl, isDigit_not_reWs hdig⟩
    · obtain ⟨init, d, hd, hdig⟩ := natDigs_last i.toNat
      exact ⟨init, d, hd, isDigit_not_reWs hdig⟩
  | str s0 =>
    exact ⟨'"' :: escapeStr s0, '"', by show '"' :: (escapeStr s0 ++ ['"']) = _; simp, by decide⟩
  | arr es =>
    cases es with
    | nil => exact ⟨['['], ']', rfl, by decide⟩
    | cons e es2 => exact ⟨'[' :: (dumpsVal e ++ dumpsElems es2), ']', by
        show '[' :: ((dumpsVal e ++ dumpsElems es2) ++ [']']) = _
        simp, by decide⟩
  | obj ms =>
    cases ms with
    | nil => exact ⟨[lbr], rbr, rfl, by decide⟩
    | cons m ms2 => exact ⟨lbr :: (dumpsMember m ++ dumpsMembers ms2), rbr, by
        show lbr :: ((dumpsMember m ++ dumpsMembers ms2) ++ [rbr]) = _
        simp, by decide⟩

/-- Text with no triple backtick has no fence match. -/
theorem noTrip_fenceExtract : ∀ l : List Char, noTrip l = true → fenceExtract l = none := by
  intro l
  induction l with
  | nil => intro _; rfl
  | cons c r ih =>
    intro h
    rw [noTrip, Bool.and_eq_true] at h
    have h1 : startsTriple (c :: r) = false := by
      have := h.1
      rwa [Bool.not_eq_true'] at this
    rw [fenceExtract, if_neg (by rw [h1]; exact Bool.false_ne_true)]
    exact ih h.2

theorem splitAtTriple_marker : ∀ (s r : List Char), noTrip s = true →
    splitAtTriple (s ++ ('\n' :: (btk :: btk :: btk :: r))) = some (s ++ ['\n'], r) := by
  intro s
  induction s with
  | nil => intro r _; rfl
  | cons c s2 ih =>
    intro r h
    rw [noTrip, Bool.and_eq_true] at h
    have h1 : startsTriple (c :: s2) = false := by
      have := h.1
      rwa [Bool.not_eq_true'] at this
    have hst : startsTriple ((c :: s2) ++ ('\n' :: (btk :: btk :: btk :: r))) = false := by
      cases s2 with
      | nil =>
        simp only [List.cons_append, List.nil_append, startsTriple]
        simp
        intro _
        decide
      | cons y s3 =>
        cases s3 with
        | nil =>
          simp only [List.cons_append, List.nil_append, startsTriple]
          simp
          intro _ _
          decide
        | cons z s4 =>
          rw [show (c :: y :: z :: s4) ++ ('\n' :: (btk :: btk :: btk :: r)) =
            c :: y :: z :: (s4 ++ ('\n' :: (btk :: btk :: btk :: r))) from rfl]
          rw [show startsTriple (c :: y :: z :: (s4 ++ ('\n' :: (btk :: btk :: btk :: r)))) =
            startsTriple (c :: y :: z :: s4) from rfl]
          exact h1
    have hstc : startsTriple (c :: (s2 ++ ('\n' :: (btk :: btk :: btk :: r)))) = false := hst
    rw [show (c :: s2) ++ ('\n' :: (btk :: btk :: btk :: r)) =
      c :: (s2 ++ ('\n' :: (btk :: btk :: btk :: r))) from rfl]
    rw [splitAtTriple]
    rw [if_neg (by rw [hstc]; exact Bool.false_ne_true)]
    rw [ih r h.2]
    rfl

theorem trimEndWs_concat {init : List Char} {d : Char} (hd : isReWs d = false) :
    trimEndWs ((init ++ [d]) ++ ['\n']) = init ++ [d] := by
  rw [trimEndWs]
  rw [show ((init ++ [d]) ++ ['\n']).reverse = '\n' :: (d :: init.reverse) from by simp]
  rw [List.dropWhile_cons, if_pos (by decide), List.dropWhile_cons, if_neg (by rw [hd]; simp)]
  simp

/-- The fence regex recovers exactly the wrapped serialization. -/
theorem fenceExtract_fenceWrap {v : Json} (hnt : noTrip (dumpsVal v) = true) :
    fenceExtract (fenceWrap (dumpsVal v)) = some (dumpsVal v) := by
  obtain ⟨c0, t0, hct0, hst0⟩ := dumpsVal_head v
  obtain ⟨init, d, hconcat, hdns⟩ := dumpsVal_concat v
  rw [fenceWrap, fenceExtract]
  rw [if_pos (by simp [startsTriple])]
  have hdrop : (btk :: btk :: btk :: 'j' :: 's' :: 'o' :: 'n' :: '\n' ::
      (dumpsVal v ++ ('\n' :: btk :: btk :: btk :: []))).drop 3 =
      'j' :: 's' :: 'o' :: 'n' :: ('\n' :: (dumpsVal v ++ ('\n' :: btk :: btk :: btk :: []))) := rfl
  rw [hdrop]
  have hfi : fenceInner ('j' :: 's' :: 'o' :: 'n' ::
      ('\n' :: (dumpsVal v ++ ('\n' :: btk :: btk :: btk :: [])))) = some (dumpsVal v) := by
    rw [fenceInner]
    rw [show ("json".data : List Char) = ['j', 's', 'o', 'n'] from rfl]
    rw [show (['j', 's', 'o', 'n'] : List Char).isPrefixOf ('j' :: 's' :: 'o' :: 'n' ::
      ('\n' :: (dumpsVal v ++ ('\n' :: btk :: btk :: btk :: [])))) = true from by
        simp [List.isPrefixOf]]
    simp only [if_true]
    rw [show ('j' :: 's' :: 'o' :: 'n' ::
      ('\n' :: (dumpsVal v ++ ('\n' :: btk :: btk :: btk :: [])))).drop 4 =
      '\n' :: (dumpsVal v ++ ('\n' :: btk :: btk :: btk :: [])) from rfl]
    rw [List.dropWhile_cons, if_pos (by decide)]
    rw [show (dumpsVal v ++ ('\n' :: btk :: btk :: btk :: [])).dropWhile isReWs =
        dumpsVal v ++ ('\n' :: btk :: btk :: btk :: []) from by
      rw [hct0, List.cons_append, List.dropWhile_cons,
        if_neg (by rw [startCh_not_reWs hst0]; simp)]]
    rw [splitAtTriple_marker (dumpsVal v) [] hnt]
    show some (trimEndWs (dumpsVal v ++ ['\n'])) = some (dumpsVal v)
    rw [show trimEndWs (dumpsVal v ++ ['\n']) = dumpsVal v from by
      rw [hconcat]; exact trimEndWs_concat hdns]
  rw [hfi]

/-- A fence-wrapped text never parses directly. -/
theorem loads_fenceWrap (s : List Char) : loads (fenceWrap s) = none := by
  rw [fenceWrap]
  exact loads_bad (skipWs_cons_not (by decide) _) (by decide)

/-! ### Assembling the repair pipeline -/

/-- A value whose serialization contains the comma-closer pattern inside a
string literal. -/
def cexVal : Json := Json.obj [(['a'], Json.str [',', rbr])]

/-- Values whose serialization ends in a closing brace or bracket. -/
def isContainer : Json → Bool
  | .arr _ => true
  | .obj _ => true
  | _ => false

/-- Values whose serialization is brace-delimited. -/
def isObj : Json → Bool
  | .obj _ => true
  | _ => false

theorem startsTriple_false_of_not_mem {l : List Char} (h : btk ∉ l) :
    startsTriple l = false := by
  cases l with
  | nil => rfl
  | cons a r =>
    cases r with
    | nil => rfl
    | cons b r2 =>
      cases r2 with
      | nil => rfl
      | cons c r3 =>
        have ha : ¬(a = btk) := fun he => h (by rw [he]; exact List.mem_cons_self _ _)
        simp [startsTriple, ha]

theorem noTrip_of_not_mem : ∀ {l : List Char}, btk ∉ l → noTrip l = true := by
  intro l
  induction l with
  | nil => intro _; rfl
  | cons c r ih =>
    intro h
    rw [noTrip, Bool.and_eq_true]
    refine ⟨?_, ih (fun hm => h (List.mem_cons_of_mem _ hm))⟩
    rw [startsTriple_false_of_not_mem h]
    rfl

theorem repairTarget_id {t : List Char} (h : fenceExtract t = none) : repairTarget t = t := by
  rw [repairTarget, h]
  rfl

theorem fenceStage_none {t : List Char} (h : fenceExtract t = none) : fenceStage t = none := by
  rw [fenceStage, h]
  rfl

theorem safe_parse_json_stage1 {t : List Char} {v : Json} (h : loads t = some v) :
    safe_parse_json t = some v := by
  rw [safe_parse_json, h]

theorem safe_parse_json_stage2 {t : List Char} {v : Json} (h1 : loads t = none)
    (h2 : fenceStage t = some v) : safe_parse_json t = some v := by
  rw [safe_parse_json, h1, h2]

theorem safe_parse_json_stage3 {t : List Char} {v : Json} (h1 : loads t = none)
    (h2 : fenceStage t = none) (h3 : commaStage t = some v) :
    safe_parse_json t = some v := by
  rw [safe_parse_json, h1, h2, h3]

theorem safe_parse_json_stage4 {t : List Char} {v : Json} (h1 : loads t = none)
    (h2 : fenceStage t = none) (h3 : commaStage t = none) (h4 : sliceStage t = some v) :
    safe_parse_json t = some v := by
  rw [safe_parse_json, h1, h2, h3]
  exact h4

theorem dumpsVal_obj_shape (ms : List (List Char × Json)) :
    ∃ mid, dumpsVal (Json.obj ms) = lbr :: (mid ++ [rbr]) := by
  cases ms with
  | nil => exact ⟨[], rfl⟩
  | cons m ms2 => exact ⟨dumpsMember m ++ dumpsMembers ms2, rfl⟩

theorem dumpsVal_arr_shape (es : List Json) :
    ∃ mid, dumpsVal (Json.arr es) = '[' :: (mid ++ [']']) := by
  cases es with
  | nil => exact ⟨[], rfl⟩
  | cons e es2 => exact ⟨dumpsVal e ++ dumpsElems es2, rfl⟩

theorem not_mem_comma_insert {x : Char} {init : List Char} {d : Char}
    (hx : ¬(x = ',')) (h : x ∉ init ++ [d]) : x ∉ init ++ [',', d] := by
  simp only [List.mem_append, List.mem_cons, List.not_mem_nil, or_false, not_or] at h ⊢
  exact ⟨h.1, hx, h.2⟩

theorem firstIdxOf_append {pre : List Char} {c : Char} (h : c ∉ pre) (r : List Char) :
    firstIdxOf c (pre ++ (c :: r)) = some pre.length := by
  induction pre with
  | nil => simp [firstIdxOf]
  | cons d t ih =>
    have hd : ¬(d = c) := fun he => h (by rw [← he]; exact List.mem_cons_self _ _)
    simp only [List.cons_append, firstIdxOf, List.append_eq]
    rw [if_neg hd, ih (fun hm => h (List.mem_cons_of_mem _ hm))]
    rfl

theorem lastIdxOf_concat {pre init post : List Char} {c : Char} (hpost : c ∉ post) :
    lastIdxOf c (pre ++ ((init ++ [c]) ++ post)) = some (pre.length + init.length) := by
  rw [lastIdxOf]
  rw [show (pre ++ ((init ++ [c]) ++ post)).reverse =
      post.reverse ++ (c :: (init.reverse ++ pre.reverse)) from by simp]
  rw [firstIdxOf_append (fun hm => hpost (List.mem_reverse.mp hm)) _]
  rw [Option.map_some']
  congr 1
  simp only [List.length_append, List.length_reverse, List.length_cons, List.length_nil]
  omega

theorem sliceBraces_prose {pre mid post : List Char}
    (hpre : lbr ∉ pre) (hpost : rbr ∉ post) :
    sliceBraces (pre ++ ((lbr :: (mid ++ [rbr])) ++ post)) = some (lbr :: (mid ++ [rbr])) := by
  rw [sliceBraces]
  have hf : firstIdxOf lbr (pre ++ ((lbr :: (mid ++ [rbr])) ++ post)) = some pre.length := by
    rw [show (lbr :: (mid ++ [rbr])) ++ post = lbr :: ((mid ++ [rbr]) ++ post) from rfl]
    exact firstIdxOf_append hpre _
  have hl : lastIdxOf rbr (pre ++ ((lbr :: (mid ++ [rbr])) ++ post)) =
      some (pre.length + (lbr :: mid).length) := by
    rw [show (lbr :: (mid ++ [rbr])) ++ post = ((lbr :: mid) ++ [rbr]) ++ post from by simp]
    exact lastIdxOf_concat hpost
  rw [hf, hl]
  show some (((pre ++ ((lbr :: (mid ++ [rbr])) ++ post)).drop pre.length).take
    (pre.length + (lbr :: mid).length + 1 - pre.length)) = some (lbr :: (mid ++ [rbr]))
  congr 1
  rw [List.drop_left]
  rw [show pre.length + (lbr :: mid).length + 1 - pre.length =
      (lbr :: (mid ++ [rbr])).length from by
    simp only [List.length_cons, List.length_append, List.length_nil]
    omega]
  exact List.take_left _ _

theorem commaStage_tcAdd_of_shape {v : Json} {init : List Char} {c : Char}
    (hwf : wfVal v = true) (hshape : dumpsVal v = init ++ [c]) (hc : c = rbr ∨ c = ']')
    (hb : btk ∉ dumpsVal v) (hpf : patFree (dumpsVal v) = true) :
    commaStage (tcAdd (dumpsVal v)) = some v := by
  have htc : tcAdd (dumpsVal v) = init ++ [',', c] := by rw [hshape]; exact tcAdd_concat _ _
  have hbt : btk ∉ tcAdd (dumpsVal v) := by
    rw [htc]
    exact not_mem_comma_insert (by decide) (hshape ▸ hb)
  have hfn : fenceExtract (tcAdd (dumpsVal v)) = none :=
    noTrip_fenceExtract _ (noTrip_of_not_mem hbt)
  rw [commaStage, repairTarget_id hfn, htc,
    removeTC_tcAdd hc (by rw [← hshape]; exact hpf), ← hshape]
  exact loads_dumps hwf

/-- C4 (counterexample): the claim asserts that any valid JSON text with one
trailing comma inserted before its closing brace still parses to the intended
structure, but for the object whose sole string value contains a comma
followed by a closing brace, the trailing-comma repair also deletes the comma
inside the string literal, so `safe_parse_json` returns a different value. -/
theorem C4_trailing_comma_counterexample :
    wfVal cexVal = true ∧
    loads (dumpsVal cexVal) = some cexVal ∧
    safe_parse_json (tcAdd (dumpsVal cexVal)) = some (Json.obj [(['a'], Json.str [rbr])]) ∧
    Json.obj [(['a'], Json.str [rbr])] ≠ cexVal := by
  refine ⟨rfl, rfl, rfl, ?_⟩
  simp [cexVal]

/-- C4 (amended): `safe_parse_json` recovers any well-formed JSON value from
its serialization; it also recovers it from a markdown-fenced wrapping when
the serialization contains no backtick, from a version with one trailing comma
inserted before the final closing brace or bracket when the serialization
contains no backtick and no comma-closer pattern of its own, and from an
object serialization surrounded by prose when the whole text fails a direct
parse, contains no backtick and no comma-closer pattern, the prose before the
object has no opening brace, and the prose after it has no closing brace. -/
theorem C4_repair_roundtrip_amended (v : Json) (hwf : wfVal v = true) :
    safe_parse_json (dumpsVal v) = some v ∧
    (btk ∉ dumpsVal v → safe_parse_json (fenceWrap (dumpsVal v)) = some v) ∧
    (btk ∉ dumpsVal v → patFree (dumpsVal v) = true → isContainer v = true →
      safe_parse_json (tcAdd (dumpsVal v)) = some v) ∧
    (∀ pre post : List Char, isObj v = true →
      loads (pre ++ (dumpsVal v ++ post)) = none →
      btk ∉ pre ++ (dumpsVal v ++ post) →
      patFree (pre ++ (dumpsVal v ++ post)) = true →
      lbr ∉ pre → rbr ∉ post →
      safe_parse_json (pre ++ (dumpsVal v ++ post)) = some v) := by
  refine ⟨safe_parse_json_stage1 (loads_dumps hwf), ?_, ?_, ?_⟩
  · intro hb
    refine safe_parse_json_stage2 (loads_fenceWrap _) ?_
    rw [fenceStage, fenceExtract_fenceWrap (noTrip_of_not_mem hb)]
    exact loads_dumps hwf
  · intro hb hpf hc
    cases v with
    | null => exact absurd hc (by simp [isContainer])
    | bool b => exact absurd hc (by simp [isContainer])
    | num n => exact absurd hc (by simp [isContainer])
    | str s => exact absurd hc (by simp [isContainer])
    | arr es =>
      obtain ⟨mid, hmid⟩ := dumpsVal_arr_shape es
      have hshape : dumpsVal (Json.arr es) = ('[' :: mid) ++ [']'] := by
        rw [hmid]
        rfl
      have htc : tcAdd (dumpsVal (Json.arr es)) = ('[' :: mid) ++ [',', ']'] := by
        rw [hshape]
        exact tcAdd_concat _ _
      have hbt : btk ∉ tcAdd (dumpsVal (Json.arr es)) := by
        rw [htc]
        exact not_mem_comma_insert (by decide) (hshape ▸ hb)
      exact safe_parse_json_stage3 (loads_tcAdd_arr es hwf)
        (fenceStage_none (noTrip_fenceExtract _ (noTrip_of_not_mem hbt)))
        (commaStage_tcAdd_of_shape hwf hshape (Or.inr rfl) hb hpf)
    | obj ms =>
      obtain ⟨mid, hmid⟩ := dumpsVal_obj_shape ms
      have hshape : dumpsVal (Json.obj ms) = (lbr :: mid) ++ [rbr] := by
        rw [hmid]
        rfl
      have htc : tcAdd (dumpsVal (Json.obj ms)) = (lbr :: mid) ++ [',', rbr] := by
        rw [hshape]
        exact tcAdd_concat _ _
      have hbt : btk ∉ tcAdd (dumpsVal (Json.obj ms)) := by
        rw [htc]
        exact not_mem_comma_insert (by decide) (hshape ▸ hb)
      exact safe_parse_json_stage3 (loads_tcAdd_obj ms hwf)
        (fenceStage_none (noTrip_fenceExtract _ (noTrip_of_not_mem hbt)))
        (commaStage_tcAdd_of_shape hwf hshape (Or.inl rfl) hb hpf)
  · intro pre post hobj hload hb hpf hpre hpost
    cases v with
    | null => exact absurd hobj (by simp [isObj])
    | bool b => exact absurd hobj (by simp [isObj])
    | num n => exact absurd hobj (by simp [isObj])
    | str s => exact absurd hobj (by simp [isObj])
    | arr es => exact absurd hobj (by simp [isObj])
    | obj ms =>
      obtain ⟨mid, hmid⟩ := dumpsVal_obj_shape ms
      have hfn : fenceExtract (pre ++ (dumpsVal (Json.obj ms) ++ post)) = none :=
        noTrip_fenceExtract _ (noTrip_of_not_mem hb)
      have hcomma : commaStage (pre ++ (dumpsVal (Json.obj ms) ++ post)) = none := by
        rw [commaStage, repairTarget_id hfn, removeTC_patFree hpf]
        exact hload
      have hslice : sliceStage (pre ++ (dumpsVal (Json.obj ms) ++ post)) = some (Json.obj ms) := by
        rw [sliceStage, repairTarget_id hfn, removeTC_patFree hpf]
        rw [show pre ++ (dumpsVal (Json.obj ms) ++ post) =
          pre ++ ((lbr :: (mid ++ [rbr])) ++ post) from by rw [hmid]]
        rw [sliceBraces_prose hpre hpost]
        rw [← hmid]
        exact loads_dumps hwf
      exact safe_parse_json_stage4 hload (fenceStage_none hfn) hcomma hslice

/-- The value used to instantiate the amended round-trip theorem. -/
def wVal : Json := Json.obj [(['a'], Json.num 1)]

/-- Witness: the amended C4 theorem applied to a concrete object, a concrete
fence wrapping, a concrete trailing-comma corruption, and concrete
surrounding prose. -/
theorem C4_repair_roundtrip_amended_witness :
    safe_parse_json (dumpsVal wVal) = some wVal ∧
    safe_parse_json (fenceWrap (dumpsVal wVal)) = some wVal ∧
    safe_parse_json (tcAdd (dumpsVal wVal)) = some wVal ∧
    safe_parse_json ("Result: ".data ++ (dumpsVal wVal ++ " done.".data)) = some wVal := by
  obtain ⟨h1, h2, h3, h4⟩ := C4_repair_roundtrip_amended wVal (by decide)
  exact ⟨h1, h2 (by decide), h3 (by decide) (by decide) (by decide),
    h4 _ _ (by decide) (by rfl) (by decide) (by decide) (by decide) (by decide)⟩

/-! ### Rotation-manager theorems -/

theorem lookupP_setP (l : List (String × Pool)) (n : String) (q : Pool) :
    lookupP (setP l n q) n = some q := by
  induction l with
  | nil => simp [setP, lookupP]
  | cons h t ih =>
    obtain ⟨m, p0⟩ := h
    by_cases hm : m = n
    · subst hm
      simp [setP, lookupP]
    · simp [setP, lookupP, hm, ih]

theorem lookupP_setP_ne (l : List (String × Pool)) {n m : String} (q : Pool) (h : ¬(m = n)) :
    lookupP (setP l n q) m = lookupP l m := by
  induction l with
  | nil =>
    show lookupP [(n, q)] m = lookupP [] m
    simp only [lookupP]
    rw [if_neg (fun he => h he.symm)]
  | cons hd t ih =>
    obtain ⟨m0, p0⟩ := hd
    rw [setP]
    by_cases hm0 : m0 = n
    · rw [if_pos hm0]
      simp only [lookupP]
      have hne : ¬(m0 = m) := by rw [hm0]; exact fun he => h he.symm
      rw [if_neg hne, if_neg hne]
    · rw [if_neg hm0]
      simp only [lookupP]
      by_cases hm : m0 = m
      · rw [if_pos hm, if_pos hm]
      · rw [if_neg hm, if_neg hm]
        exact ih

theorem rotate_adv_model {st : RMState} {p : Pool}
    (hp : lookupP st.providers st.active_provider = some p)
    (hk : p.keys ≠ []) (hlt : p.model_idx + 1 < p.models.length) :
    rotate st = RotateOut.mk true
      { st with providers := setP st.providers st.active_provider { p with model_idx := p.model_idx + 1 } }
      true st.has_callback := by
  simp only [rotate, hp]
  rw [if_neg hk, if_neg (show ¬(p.model_idx + 1 ≥ p.models.length) by omega)]

theorem rotate_adv_key {st : RMState} {p : Pool}
    (hp : lookupP st.providers st.active_provider = some p)
    (hk : p.keys ≠ []) (hge : p.model_idx + 1 ≥ p.models.length)
    (hlt : p.key_idx + 1 < p.keys.length) :
    rotate st = RotateOut.mk true
      { st with providers := setP st.providers st.active_provider { p with key_idx := p.key_idx + 1, model_idx := 0 } }
      true st.has_callback := by
  simp only [rotate, hp]
  rw [if_neg hk, if_pos hge, if_neg (show ¬(p.key_idx + 1 ≥ p.keys.length) by omega)]

theorem rotate_reset {st : RMState} {p : Pool}
    (hp : lookupP st.providers st.active_provider = some p)
    (hk : p.keys ≠ []) (hge : p.model_idx + 1 ≥ p.models.length)
    (hge2 : p.key_idx + 1 ≥ p.keys.length) :
    rotate st = RotateOut.mk false
      { st with providers := setP st.providers st.active_provider { p with key_idx := 0, model_idx := 0 } }
      true false := by
  simp only [rotate, hp]
  rw [if_neg hk, if_pos hge, if_pos hge2]

/-- C1: for a usable pool, `rotate` advances the model cursor, carries into the
key cursor on wraparound, and on a full cycle resets both cursors to zero and
returns false, after which `get_current` succeeds on the first key and model. -/
theorem C1_rotate_cycle (st : RMState) (p : Pool)
    (hp : lookupP st.providers st.active_provider = some p)
    (hk : p.keys ≠ []) (hm : p.models ≠ []) :
    (p.model_idx + 1 < p.models.length →
      (rotate st).ok = true ∧ cursors (rotate st).st = (p.key_idx, p.model_idx + 1)) ∧
    (p.model_idx + 1 ≥ p.models.length → p.key_idx + 1 < p.keys.length →
      (rotate st).ok = true ∧ cursors (rotate st).st = (p.key_idx + 1, 0)) ∧
    (p.model_idx + 1 ≥ p.models.length → p.key_idx + 1 ≥ p.keys.length →
      (rotate st).ok = false ∧ cursors (rotate st).st = (0, 0)) ∧
    ((rotate st).ok = false →
      cursors (rotate st).st = (0, 0) ∧
      ∃ kv m0, p.keys.get? 0 = some kv ∧ p.models.get? 0 = some m0 ∧
        get_current (rotate st).st = .ok (kv.1, m0, kv.2)) := by
  by_cases h1 : p.model_idx + 1 < p.models.length
  · have hrot := rotate_adv_model hp hk h1
    refine ⟨fun _ => ⟨by rw [hrot], by rw [hrot]; simp [cursors, lookupP_setP]⟩,
      fun h2 _ => absurd h1 (by omega),
      fun h2 _ => absurd h1 (by omega),
      fun hf => ?_⟩
    rw [hrot] at hf
    simp at hf
  · by_cases h2 : p.key_idx + 1 < p.keys.length
    · have hrot := rotate_adv_key hp hk (by omega) h2
      refine ⟨fun hlt => absurd hlt h1,
        fun _ _ => ⟨by rw [hrot], by rw [hrot]; simp [cursors, lookupP_setP]⟩,
        fun _ hge2 => absurd h2 (by omega),
        fun hf => ?_⟩
      rw [hrot] at hf
      simp at hf
    · have hrot := rotate_reset hp hk (by omega) (by omega)
      refine ⟨fun hlt => absurd hlt h1,
        fun _ h2' => absurd h2' h2,
        fun _ _ => ⟨by rw [hrot], by rw [hrot]; simp [cursors, lookupP_setP]⟩,
        fun _ => ⟨by rw [hrot]; simp [cursors, lookupP_setP], ?_⟩⟩
      cases hkl : p.keys with
      | nil => exact absurd hkl hk
      | cons kv kt =>
        cases hml : p.models with
        | nil => exact absurd hml hm
        | cons m0 mt =>
          refine ⟨kv, m0, by rfl, by rfl, ?_⟩
          rw [hrot]
          simp only [get_current, lookupP_setP]
          rw [if_neg (show ¬({ p with key_idx := 0, model_idx := 0 } : Pool).keys = [] from by
            show ¬(p.keys = []); rw [hkl]; simp)]
          show (match p.keys.get? 0, p.models.get? 0 with
            | some kv2, some m2 => Except.ok (kv2.1, m2, kv2.2)
            | _, _ => Except.error RotationErr.indexErr) = _
          rw [hkl, hml]
          rfl

/-- Pool used by the rotation witnesses: one key, one model, cursors at 0. -/
def pC1 : Pool := ⟨[("k1", "l1")], ["m1"], 0, 0⟩

/-- State used by the rotation witnesses. -/
def stC1 : RMState := ⟨[("google", pC1)], "google", false⟩

/-- Witness: a full cycle on a one-key one-model pool resets the cursors and
leaves `get_current` succeeding. -/
theorem C1_rotate_cycle_witness :
    (rotate stC1).ok = false ∧ cursors (rotate stC1).st = (0, 0) ∧
    get_current (rotate stC1).st = .ok ("k1", "m1", "l1") := by
  obtain ⟨-, -, h3, -⟩ := C1_rotate_cycle stC1 pC1 rfl (by decide) (by decide)
  obtain ⟨hok, hcur⟩ := h3 (by decide) (by decide)
  exact ⟨hok, hcur, by rfl⟩

theorem lookupP_foldl_not_mem : ∀ (l : List PData) (ps : List (String × Pool)) (n : String),
    (∀ pd ∈ l, pd.name ≠ n) → lookupP (l.foldl updateOneProvider ps) n = lookupP ps n := by
  intro l
  induction l with
  | nil => intro ps n _; rfl
  | cons hd tl ih =>
    intro ps n h
    rw [List.foldl_cons]
    rw [ih _ _ (fun pd hm => h pd (List.mem_cons_of_mem _ hm))]
    simp only [updateOneProvider]
    exact lookupP_setP_ne _ _ (fun he => (h hd (List.mem_cons_self _ _)) he.symm)

theorem lookupP_foldl_update : ∀ (l : List PData) (ps : List (String × Pool)) (pd : PData),
    pd ∈ l → (l.map PData.name).Nodup →
    lookupP (l.foldl updateOneProvider ps) pd.name =
      lookupP (updateOneProvider ps pd) pd.name := by
  intro l
  induction l with
  | nil => intro ps pd hm _; cases hm
  | cons hd tl ih =>
    intro ps pd hm hnd
    rw [List.foldl_cons]
    rw [List.map_cons, List.nodup_cons] at hnd
    rcases List.mem_cons.mp hm with he | ht
    · subst he
      exact lookupP_foldl_not_mem tl _ pd.name
        (fun q hq hne => hnd.1 (hne ▸ List.mem_map_of_mem PData.name hq))
    · rw [ih _ pd ht hnd.2]
      have hne : ¬(pd.name = hd.name) :=
        fun he => hnd.1 (he ▸ List.mem_map_of_mem PData.name ht)
      simp only [updateOneProvider]
      rw [lookupP_setP, lookupP_setP, lookupP_setP_ne _ _ hne]

/-- C7: `update_settings` keeps a provider's stored cursors when they are in
range for the new keys/models lists and resets them to zero otherwise; a
provider with no stored pool starts at zero. -/
theorem C7_update_settings_cursors (st : RMState) (s : Settings) (pd : PData)
    (hmem : pd ∈ s.providers) (hnd : (s.providers.map PData.name).Nodup) :
    (∀ pold, lookupP st.providers pd.name = some pold →
      lookupP (update_settings st s).providers pd.name =
        some ⟨pd.keys, pd.models,
          if pold.key_idx < pd.keys.length then pold.key_idx else 0,
          if pold.model_idx < pd.models.length then pold.model_idx else 0⟩) ∧
    (lookupP st.providers pd.name = none →
      lookupP (update_settings st s).providers pd.name = some ⟨pd.keys, pd.models, 0, 0⟩) := by
  have hbase : lookupP (update_settings st s).providers pd.name =
      lookupP (updateOneProvider st.providers pd) pd.name := by
    simp only [update_settings]
    exact lookupP_foldl_update _ _ _ hmem hnd
  constructor
  · intro pold hold
    rw [hbase]
    simp only [updateOneProvider, hold, lookupP_setP]
    have hk' : (if pold.key_idx ≥ pd.keys.length then 0 else pold.key_idx)
        = (if pold.key_idx < pd.keys.length then pold.key_idx else 0) := by
      by_cases hki : pold.key_idx < pd.keys.length
      · rw [if_pos hki, if_neg (show ¬(pold.key_idx ≥ pd.keys.length) by omega)]
      · rw [if_neg hki, if_pos (show pold.key_idx ≥ pd.keys.length by omega)]
    have hm' : (if pold.model_idx ≥ pd.models.length then 0 else pold.model_idx)
        = (if pold.model_idx < pd.models.length then pold.model_idx else 0) := by
      by_cases hmi : pold.model_idx < pd.models.length
      · rw [if_pos hmi, if_neg (show ¬(pold.model_idx ≥ pd.models.length) by omega)]
      · rw [if_neg hmi, if_pos (show pold.model_idx ≥ pd.models.length by omega)]
    rw [hk', hm']
  · intro hnone
    rw [hbase]
    simp only [updateOneProvider, hnone, lookupP_setP]
    simp

/-- Data for the `update_settings` witness: key cursor out of range for the
new key list, model cursor still in range. -/
def pdW7 : PData := ⟨"google", [("k9", "l9")], ["m1", "m2", "m3"]⟩

/-- Stored state for the `update_settings` witness. -/
def stW7 : RMState := ⟨[("google", ⟨[("k1", "l1"), ("k2", "l2")], ["m1", "m2", "m3"], 1, 2⟩)],
  "google", false⟩

/-- Witness: updating with one fewer key resets the key cursor and keeps the
model cursor. -/
theorem C7_update_settings_cursors_witness :
    lookupP (update_settings stW7 ⟨none, [pdW7]⟩).providers "google" =
      some ⟨[("k9", "l9")], ["m1", "m2", "m3"], 0, 2⟩ := by
  have h := (C7_update_settings_cursors stW7 ⟨none, [pdW7]⟩ pdW7
    (List.mem_singleton.mpr rfl) (by simp)).1
    ⟨[("k1", "l1"), ("k2", "l2")], ["m1", "m2", "m3"], 1, 2⟩ rfl
  exact h

/-- C8: `get_current` fails with the pool-unusable error exactly when the
active provider's key list is empty, and otherwise returns the credential at
the current cursor positions. -/
theorem C8_get_current (st : RMState) (p : Pool)
    (hp : lookupP st.providers st.active_provider = some p) :
    (p.keys = [] → get_current st = .error .poolUnusable) ∧
    (∀ kv m, p.keys.get? p.key_idx = some kv → p.models.get? p.model_idx = some m →
      get_current st = .ok (kv.1, m, kv.2)) := by
  constructor
  · intro hk
    simp only [get_current, hp]
    rw [if_pos hk]
  · intro kv m hkv hm
    have hk : ¬(p.keys = []) := by
      intro he
      rw [he] at hkv
      cases p.key_idx <;> cases hkv
    simp only [get_current, hp]
    rw [if_neg hk, hkv, hm]

/-- State with an empty key list for the `get_current` witness. -/
def stW8e : RMState := ⟨[("google", ⟨[], ["m1"], 0, 0⟩)], "google", false⟩

/-- Witness: `get_current` surfaces the pool-unusable error on an empty key
list and returns the cursor credential otherwise. -/
theorem C8_get_current_witness :
    get_current stW8e = .error .poolUnusable ∧
    get_current stC1 = .ok ("k1", "m1", "l1") := by
  refine ⟨(C8_get_current stW8e ⟨[], ["m1"], 0, 0⟩ rfl).1 rfl, ?_⟩
  exact (C8_get_current stC1 pC1 rfl).2 ("k1", "l1") "m1" rfl rfl

/-- C10: `rotate` on an unconfigured provider or an empty key list returns
false with the state unchanged, nothing persisted and no callback invoked. -/
theorem C10_rotate_unusable (st : RMState) :
    (lookupP st.providers st.active_provider = none →
      rotate st = ⟨false, st, false, false⟩) ∧
    (∀ p, lookupP st.providers st.active_provider = some p → p.keys = [] →
      rotate st = ⟨false, st, false, false⟩) := by
  constructor
  · intro h
    simp only [rotate, h]
  · intro p hp hk
    simp only [rotate, hp]
    rw [if_pos hk]

/-- Witness: `rotate` on a state with no providers and on a provider with an
empty key list. -/
theorem C10_rotate_unusable_witness :
    rotate (⟨[], "google", true⟩ : RMState) = ⟨false, ⟨[], "google", true⟩, false, false⟩ ∧
    rotate stW8e = ⟨false, stW8e, false, false⟩ := by
  refine ⟨(C10_rotate_unusable _).1 rfl, ?_⟩
  exact (C10_rotate_unusable stW8e).2 ⟨[], ["m1"], 0, 0⟩ rfl rfl

/-! ## `call_llm` (`tools/pipeline/common/llm.py` lines 57-110)

The provider modules, clock and console are external, so the loop is
parameterized by the behaviour of the provider call on each attempt
(`behav attempt credential`), which either returns a raw response or raises
an exception carrying a message.  The trace records, in order, each attempt
with the active cursor pair, each rotation with its result and the cursor
afterwards, and each backoff sleep with its duration.  `raise parse_err` on
the last attempt propagates out of the loop (the surrounding handler cannot
retry there since `attempt < retries - 1` already fails). -/

/-- `str.lower()` (the messages involved are ASCII). -/
def toLowerStr (l : List Char) : List Char := l.map Char.toLower

/-- Python's substring test `needle in hay`. -/
def hasSub (needle : List Char) : List Char → Bool
  | [] => needle.isEmpty
  | c :: t => needle.isPrefixOf (c :: t) || hasSub needle t

/-- The rotatable-error indicators of llm.py line 96. -/
def rotatableIndicators : List (List Char) :=
  ["429".data, "quota".data, "503".data, "500".data, "404".data, "not found".data,
   "403".data, "forbidden".data, "400".data, "invalid_argument".data, "modality".data]

/-- `is_error_rotatable` (llm.py line 96). -/
def is_error_rotatable (msg : List Char) : Bool :=
  rotatableIndicators.any (fun x => hasSub x (toLowerStr msg))

/-- Result of one provider call: a raw response or a raised exception. -/
inductive ProvResult where
  | ok (raw : List Char)
  | exn (msg : List Char)
deriving Repr

/-- Observable events of one `call_llm` run. -/
inductive LLMEvent where
  | attemptAt (attempt : Nat) (cursor : Nat × Nat)
  | rotated (ok : Bool) (cursor : Nat × Nat)
  | slept (secs : Nat)
deriving Repr, DecidableEq

/-- How a `call_llm` run ends. -/
inductive LLMOutcome where
  | success (raw : List Char)
  | parsed (v : Json)
  | raised (msg : List Char)
  | parseFail
  | fellThrough

/-- The `for attempt in range(retries)` loop of `call_llm`, fuel-indexed by
the number of remaining iterations (the caller passes `fuel = retries`,
`attempt = 0`; `fellThrough` is the implicit `None` when the range ends). -/
def callLLMAux (behav : Nat → String × String × String → ProvResult)
    (validate : Bool) (retries : Nat) :
    Nat → Nat → RMState → List LLMEvent → LLMOutcome × RMState × List LLMEvent
  | 0, _, st, tr => (.fellThrough, st, tr)
  | fuel + 1, attempt, st, tr =>
    let tr1 := tr ++ [.attemptAt attempt (cursors st)]
    match get_current st with
    | .error e =>
      let msg := (rotationErrMsg st.active_provider e).data
      if is_error_rotatable msg && decide (attempt < retries - 1) then
        let ro := rotate st
        if ro.ok then
          callLLMAux behav validate retries fuel (attempt + 1) ro.st
            (tr1 ++ [.rotated true (cursors ro.st)])
        else
          callLLMAux behav validate retries fuel (attempt + 1) ro.st
            (tr1 ++ [.rotated false (cursors ro.st), .slept ((attempt + 1) * 20)])
      else (.raised msg, st, tr1)
    | .ok cred =>
      match behav attempt cred with
      | .exn msg =>
        if is_error_rotatable msg && decide (attempt < retries - 1) then
          let ro := rotate st
          if ro.ok then
            callLLMAux behav validate retries fuel (attempt + 1) ro.st
              (tr1 ++ [.rotated true (cursors ro.st)])
          else
            callLLMAux behav validate retries fuel (attempt + 1) ro.st
              (tr1 ++ [.rotated false (cursors ro.st), .slept ((attempt + 1) * 20)])
        else (.raised msg, st, tr1)
      | .ok raw =>
        if validate then
          match safe_parse_json raw with
          | some v => (.parsed v, st, tr1)
          | none =>
            if attempt < retries - 1 then
              let ro := rotate st
              callLLMAux behav validate retries fuel (attempt + 1) ro.st
                (tr1 ++ [.rotated ro.ok (cursors ro.st)])
            else (.parseFail, st, tr1)
        else (.success raw, st, tr1)

/-- `call_llm` (llm.py lines 57-110). -/
def call_llm (behav : Nat → String × String × String → ProvResult)
    (validate : Bool) (retries : Nat) (st : RMState) :
    LLMOutcome × RMState × List LLMEvent :=
  callLLMAux behav validate retries retries 0 st []

/-- Message and scenario data for the retry-loop theorems. -/
def e429 : List Char := "Error 429".data

/-- Provider behaviour that always raises a rate-limit error. -/
def behavG (_ : Nat) (_ : String × String × String) : ProvResult := .exn e429

/-- The scenario pool: keys `[k1, k2]`, models `[m1, m2]`, cursor `(0, 0)`. -/
def pG : Pool := ⟨[("k1", "lab1"), ("k2", "lab2")], ["m1", "m2"], 0, 0⟩

/-- The scenario state with the google provider active. -/
def stG : RMState := ⟨[("google", pG)], "google", false⟩

/-- C2: on a retryable failure with attempts remaining, a successful rotation
retries immediately with no sleep, while an exhausted rotation sleeps for
`(attempt + 1) * 20` seconds before retrying; and on the two-key two-model
scenario pool, five attempts under a constant 429 failure visit the cursors
(0,1), (1,0), (1,1), then back off for 80 seconds with the cursor reset to
(0,0). -/
theorem C2_rotate_backoff (behav : Nat → String × String × String → ProvResult)
    (validate : Bool) (retries fuel attempt : Nat) (st : RMState) (tr : List LLMEvent)
    (cred : String × String × String) (msg : List Char)
    (hg : get_current st = .ok cred) (hb : behav attempt cred = .exn msg)
    (hrot : is_error_rotatable msg = true) (hatt : attempt < retries - 1) :
    ((rotate st).ok = true →
      callLLMAux behav validate retries (fuel + 1) attempt st tr =
        callLLMAux behav validate retries fuel (attempt + 1) (rotate st).st
          (tr ++ [.attemptAt attempt (cursors st), .rotated true (cursors (rotate st).st)])) ∧
    ((rotate st).ok = false →
      callLLMAux behav validate retries (fuel + 1) attempt st tr =
        callLLMAux behav validate retries fuel (attempt + 1) (rotate st).st
          (tr ++ [.attemptAt attempt (cursors st), .rotated false (cursors (rotate st).st),
            .slept ((attempt + 1) * 20)])) ∧
    call_llm behavG false 5 stG =
      (.raised e429, stG,
       [.attemptAt 0 (0, 0), .rotated true (0, 1), .attemptAt 1 (0, 1), .rotated true (1, 0),
        .attemptAt 2 (1, 0), .rotated true (1, 1), .attemptAt 3 (1, 1), .rotated false (0, 0),
        .slept 80, .attemptAt 4 (0, 0)]) := by
  have hand : (is_error_rotatable msg && decide (attempt < retries - 1)) = true := by
    rw [hrot, decide_eq_true hatt]
    rfl
  refine ⟨?_, ?_, by rfl⟩
  · intro hro
    simp only [callLLMAux, hg, hb]
    rw [if_pos hand, if_pos hro, List.append_assoc]
    rfl
  · intro hro
    simp only [callLLMAux, hg, hb]
    rw [if_pos hand, if_neg (show ¬((rotate st).ok = true) by rw [hro]; exact Bool.false_ne_true),
      List.append_assoc]
    rfl

/-- Witness: the backoff theorem applied to the scenario state (successful
rotation, no sleep) and to a one-key one-model state (exhausted rotation,
20-second sleep). -/
theorem C2_rotate_backoff_witness :
    callLLMAux behavG false 5 5 0 stG [] =
      callLLMAux behavG false 5 4 1 (rotate stG).st
        [.attemptAt 0 (cursors stG), .rotated true (cursors (rotate stG).st)] ∧
    callLLMAux behavG false 5 5 0 stC1 [] =
      callLLMAux behavG false 5 4 1 (rotate stC1).st
        [.attemptAt 0 (cursors stC1), .rotated false (cursors (rotate stC1).st), .slept 20] := by
  constructor
  · exact (C2_rotate_backoff behavG false 5 4 0 stG [] ("k1", "m1", "lab1") e429
      rfl rfl (by decide) (by decide)).1 rfl
  · exact (C2_rotate_backoff behavG false 5 4 0 stC1 [] ("k1", "m1", "l1") e429
      rfl rfl (by decide) (by decide)).2.1 rfl

/-- C3: an exception whose message matches no retryable indicator is re-raised
at once — the state is unchanged, nothing is rotated and no later attempt is
made — while a matching message with attempts remaining rotates and retries. -/
theorem C3_error_classification (behav : Nat → String × String × String → ProvResult)
    (validate : Bool) (retries fuel attempt : Nat) (st : RMState) (tr : List LLMEvent)
    (cred : String × String × String) (msg : List Char)
    (hg : get_current st = .ok cred) (hb : behav attempt cred = .exn msg) :
    (is_error_rotatable msg = false →
      callLLMAux behav validate retries (fuel + 1) attempt st tr =
        (.raised msg, st, tr ++ [.attemptAt attempt (cursors st)])) ∧
    (is_error_rotatable msg = true → attempt < retries - 1 →
      callLLMAux behav validate retries (fuel + 1) attempt st tr =
        (if (rotate st).ok then
          callLLMAux behav validate retries fuel (attempt + 1) (rotate st).st
            (tr ++ [.attemptAt attempt (cursors st), .rotated true (cursors (rotate st).st)])
        else
          callLLMAux behav validate retries fuel (attempt + 1) (rotate st).st
            (tr ++ [.attemptAt attempt (cursors st), .rotated false (cursors (rotate st).st),
              .slept ((attempt + 1) * 20)]))) := by
  constructor
  · intro hrot
    simp only [callLLMAux, hg, hb, hrot, Bool.false_and]
    rw [if_neg Bool.false_ne_true]
  · intro hrot hatt
    have hand : (is_error_rotatable msg && decide (attempt < retries - 1)) = true := by
      rw [hrot, decide_eq_true hatt]
      rfl
    simp only [callLLMAux, hg, hb]
    rw [if_pos hand]
    by_cases hro : (rotate st).ok = true
    · rw [if_pos hro, if_pos hro, List.append_assoc]
      rfl
    · rw [if_neg hro, if_neg hro, List.append_assoc]
      rfl

/-- A non-retryable provider failure (no indicator occurs in the message). -/
def behavFatal (_ : Nat) (_ : String × String × String) : ProvResult :=
  .exn "schema mismatch".data

/-- Witness: the classification theorem applied to a fatal message (immediate
re-raise) and to a retryable message (rotation and retry). -/
theorem C3_error_classification_witness :
    callLLMAux behavFatal false 100 100 0 stG [] =
      (.raised "schema mismatch".data, stG, [.attemptAt 0 (cursors stG)]) ∧
    callLLMAux behavG false 100 100 0 stG [] =
      callLLMAux behavG false 100 99 1 (rotate stG).st
        [.attemptAt 0 (cursors stG), .rotated true (cursors (rotate stG).st)] := by
  constructor
  · exact (C3_error_classification behavFatal false 100 99 0 stG [] ("k1", "m1", "lab1")
      "schema mismatch".data rfl rfl).1 (by decide)
  · have h := (C3_error_classification behavG false 100 99 0 stG [] ("k1", "m1", "lab1")
      e429 rfl rfl).2 (by decide) (by decide)
    rw [h, if_pos (show (rotate stG).ok = true from rfl)]
    rfl

/-! ## RAG layer (`tools/rag/retriever/hybrid_retriever.py`,
`tools/rag/generator/rag_chain.py`)

The vector store, prompt templates and LLM are external modules, so
`retrieve` is parameterized by the per-collection search call (which either
returns results or raises), and `chat` / `explain_question` by the prompt
builders and the generation call.  Scores are modelled as rationals and
metadata as string-to-string association lists (Python renders non-string
values through f-strings anyway).  The `RAGResponse.metadata` logging dict
carries no behaviour and is not modelled. -/

/-- One vector-store hit (`chroma_store.SearchResult`). -/
structure SearchResult where
  id : List Char
  content : List Char
  score : ℚ
  metadata : List (List Char × List Char)
deriving Repr, DecidableEq

/-- `RetrievalContext` (hybrid_retriever.py lines 14-20). -/
structure RetrievalContext where
  query : List Char
  system_context : List SearchResult
  toeic_context : List SearchResult
  user_context : List SearchResult
deriving Repr, DecidableEq

/-- `dict.get(k, default)` on a metadata dict. -/
def metaGet (md : List (List Char × List Char)) (k dflt : List Char) : List Char :=
  match md.find? (fun kv => kv.1 == k) with
  | some kv => kv.2
  | none => dflt

/-- Stable insertion of one result into a descending-by-score list; folding it
over a list reproduces Python's stable `sorted(..., reverse=True)`. -/
def insertDesc (x : SearchResult) : List SearchResult → List SearchResult
  | [] => [x]
  | y :: t => if y.score < x.score then x :: y :: t else y :: insertDesc x t

/-- `get_all_results` (hybrid_retriever.py lines 22-29). -/
def get_all_results (c : RetrievalContext) : List SearchResult :=
  (c.system_context ++ c.toeic_context ++ c.user_context).foldl
    (fun acc x => insertDesc x acc) []

/-- `get_top_k` (hybrid_retriever.py lines 31-33). -/
def get_top_k (c : RetrievalContext) (k : Nat) : List SearchResult :=
  (get_all_results c).take k

/-- `content[:n] + "..."` when the content is longer than `n`. -/
def truncDots (n : Nat) (content : List Char) : List Char :=
  if content.length > n then content.take n ++ "...".data else content

/-- `to_prompt_context` (hybrid_retriever.py lines 35-70); `maxItems` is the
source's unused `max_items` parameter. -/
def to_prompt_context (c : RetrievalContext) (maxItems : Nat) : List Char :=
  let sections : List (List Char) :=
    (if c.system_context ≠ [] then
      [("📚 **Hướng dẫn sử dụng hệ thống:**\n".data ++
        List.intercalate "\n".data
          ((c.system_context.take 3).map (fun r => "- ".data ++ truncDots 500 r.content)))]
    else []) ++
    (if c.toeic_context ≠ [] then
      [("📝 **Kiến thức TOEIC liên quan:**\n".data ++
        List.intercalate "\n\n".data
          ((c.toeic_context.take 5).map (fun r =>
            "[".data ++ metaGet r.metadata "test_id".data "Unknown".data ++ " - ".data ++
              metaGet r.metadata "question_id".data "Unknown".data ++ " - Part ".data ++
              metaGet r.metadata "part_number".data "?".data ++ "]\n".data ++
              truncDots 400 r.content)))]
    else []) ++
    (if c.user_context ≠ [] then
      [("👤 **Phân tích lỗi sai của bạn:**\n".data ++
        List.intercalate "\n\n".data
          ((c.user_context.take 5).map (fun r =>
            "[Lỗi sai: ".data ++ metaGet r.metadata "test_id".data [] ++ " - ".data ++
              metaGet r.metadata "question_id".data [] ++ "]\n".data ++
              truncDots 300 r.content)))]
    else [])
  if sections ≠ [] then List.intercalate "\n\n---\n\n".data sections
  else "Không tìm thấy thông tin liên quan.".data

/-- The default collection list of `retrieve`. -/
def defaultCollections : List (List Char) := ["system".data, "toeic".data, "user".data]

/-- `HybridRetriever.retrieve` (hybrid_retriever.py lines 98-169): each
collection's search is wrapped in its own try/except that degrades to an
empty result list. -/
def retrieve (search : List Char → Except (List Char) (List SearchResult))
    (query : List Char) (collections : Option (List (List Char))) : RetrievalContext :=
  let cols := collections.getD defaultCollections
  let system_results := if cols.contains "system".data then
      match search "system".data with | .ok r => r | .error _ => []
    else []
  let toeic_results := if cols.contains "toeic".data then
      match search "toeic".data with | .ok r => r | .error _ => []
    else []
  let user_results := if cols.contains "user".data then
      match search "user".data with | .ok r => r | .error _ => []
    else []
  ⟨query, system_results, toeic_results, user_results⟩

/-- Python's banker's rounding to the nearest integer. -/
def roundHalfEven (q : ℚ) : Int :=
  let f := ⌊q⌋
  let r := q - f
  if r < 1 / 2 then f
  else if 1 / 2 < r then f + 1
  else if f % 2 = 0 then f else f + 1

/-- `round(x, 3)`. -/
def round3 (q : ℚ) : ℚ := roundHalfEven (q * 1000) / 1000

/-- One entry of the `sources` list built by `chat` (rag_chain.py lines
124-132). -/
structure SourceEntry where
  id : List Char
  content_preview : List Char
  score : ℚ
  metadata : List (List Char × List Char)
deriving Repr, DecidableEq

/-- `RAGResponse` (rag_chain.py lines 21-27); the `metadata` logging dict is
not modelled. -/
structure RAGResponse where
  answer : List Char
  context : RetrievalContext
  sources : List SourceEntry
deriving Repr, DecidableEq

/-- The source entry built for one retrieved result. -/
def mkSource (r : SearchResult) : SourceEntry :=
  ⟨r.id, truncDots 100 r.content, round3 r.score, r.metadata⟩

/-- `RAGChain.chat` (rag_chain.py lines 79-145), parameterized by the
generation call and the prompt builders; retrieval has already produced
`context`. -/
def chat (callLLM : List Char → Except (List Char) (List Char))
    (systemPrompt : List Char) (buildChatPrompt : List Char → List Char → List Char)
    (query : List Char) (context : RetrievalContext) : RAGResponse :=
  let context_text := to_prompt_context context 10
  let prompt := buildChatPrompt query context_text
  let full_prompt := systemPrompt ++ "\n\n---\n\n".data ++ prompt
  let answer := match callLLM full_prompt with
    | .ok a => a
    | .error e => "[Lỗi khi gọi LLM: ".data ++ e ++
        "]\n\nDựa trên thông tin tìm được:\n".data ++ context_text.take 500 ++ "...".data
  ⟨answer, context, (get_top_k context 5).map mkSource⟩

/-- `RAGChain.explain_question` (rag_chain.py lines 147-257): the question
content is the first toeic hit whose id contains the question id, the error
analysis the first user hit whose `question_id` metadata contains it; the
transcripts only feed the (parameterized) prompt builder.  On generation
failure the answer is only the error note. -/
def explain_question (callLLM : List Char → Except (List Char) (List Char))
    (systemPrompt : List Char)
    (buildExplanationPrompt : List Char → List Char → List Char)
    (question_id : List Char) (context : RetrievalContext) : RAGResponse :=
  let question_content := match context.toeic_context.find? (fun r => hasSub question_id r.id) with
    | some r => r.content
    | none => []
  let error_analysis := match context.user_context.find?
      (fun r => hasSub question_id (metaGet r.metadata "question_id".data [])) with
    | some r => r.content
    | none => []
  let prompt := buildExplanationPrompt question_content error_analysis
  let full_prompt := systemPrompt ++ "\n\n---\n\n".data ++ prompt
  let answer := match callLLM full_prompt with
    | .ok a => a
    | .error e => "[Lỗi: ".data ++ e ++ "]".data
  ⟨answer, context, []⟩

/-- C6: a failing collection search contributes an empty list while the other
two collections' results are returned unchanged. -/
theorem C6_retrieve_isolation (search : List Char → Except (List Char) (List SearchResult))
    (q : List Char) :
    (∀ e rt ru, search "system".data = .error e → search "toeic".data = .ok rt →
      search "user".data = .ok ru → retrieve search q none = ⟨q, [], rt, ru⟩) ∧
    (∀ rs e ru, search "system".data = .ok rs → search "toeic".data = .error e →
      search "user".data = .ok ru → retrieve search q none = ⟨q, rs, [], ru⟩) ∧
    (∀ rs rt e, search "system".data = .ok rs → search "toeic".data = .ok rt →
      search "user".data = .error e → retrieve search q none = ⟨q, rs, rt, []⟩) := by
  refine ⟨fun e rt ru h1 h2 h3 => ?_, fun rs e ru h1 h2 h3 => ?_, fun rs rt e h1 h2 h3 => ?_⟩
  · simp only [retrieve, h1, h2, h3]
    rfl
  · simp only [retrieve, h1, h2, h3]
    rfl
  · simp only [retrieve, h1, h2, h3]
    rfl

/-- A search result and search function used by the retriever witness. -/
def srSys : SearchResult := ⟨"s1".data, "guide text".data, 1, []⟩

/-- A user-collection result for the witnesses. -/
def srUser : SearchResult :=
  ⟨"t1_q7".data, "missed word detail".data, 1, [("question_id".data, "q7".data)]⟩

/-- Search behaviour whose toeic collection raises. -/
def searchW6 (c : List Char) : Except (List Char) (List SearchResult) :=
  if c = "toeic".data then .error "db down".data
  else if c = "system".data then .ok [srSys]
  else .ok [srUser]

/-- Witness: with the toeic collection failing, `retrieve` still returns the
system and user results. -/
theorem C6_retrieve_isolation_witness :
    retrieve searchW6 "q".data none = ⟨"q".data, [srSys], [], [srUser]⟩ :=
  (C6_retrieve_isolation searchW6 "q".data).2.1 [srSys] "db down".data [srUser] rfl rfl rfl

/-- An always-failing generation call. -/
def llmFail (_ : List Char) : Except (List Char) (List Char) := .error "boom".data

/-- A trivial prompt builder standing in for the external templates. -/
def bp2 (_ _ : List Char) : List Char := []

/-- The retrieval context used by the RAG-chain witnesses. -/
def ctxW5 : RetrievalContext := ⟨"why".data, [], [], [srUser]⟩

/-- C5 (counterexample): the claim asserts that both `chat` and
`explain_question` answer generation failures with a text embedding the
truncated retrieved context, but `explain_question` answers with the error
note alone: the retrieved content appears in the prompt context and in
`chat`'s degraded answer, yet not in `explain_question`'s. -/
theorem C5_explain_fallback_counterexample :
    (explain_question llmFail [] bp2 "q7".data ctxW5).answer = "[Lỗi: boom]".data ∧
    hasSub "missed word detail".data (to_prompt_context ctxW5 10) = true ∧
    hasSub "missed word detail".data
      ((chat llmFail [] bp2 "why".data ctxW5).answer) = true ∧
    hasSub "missed word detail".data
      ((explain_question llmFail [] bp2 "q7".data ctxW5).answer) = false :=
  ⟨rfl, rfl, rfl, rfl⟩

/-- C5 (amended): generation failures never propagate: `chat` answers with the
error note plus the first 500 characters of the retrieved context, while
`explain_question` answers with the error note alone. -/
theorem C5_generation_fallback_amended
    (callLLM : List Char → Except (List Char) (List Char))
    (systemPrompt : List Char) (bcp bep : List Char → List Char → List Char)
    (query qid : List Char) (ctx : RetrievalContext) (e : List Char)
    (hfail : ∀ p, callLLM p = .error e) :
    (chat callLLM systemPrompt bcp query ctx).answer =
      "[Lỗi khi gọi LLM: ".data ++ e ++ "]\n\nDựa trên thông tin tìm được:\n".data ++
        (to_prompt_context ctx 10).take 500 ++ "...".data ∧
    (explain_question callLLM systemPrompt bep qid ctx).answer =
      "[Lỗi: ".data ++ e ++ "]".data := by
  constructor
  · simp only [chat, hfail]
  · simp only [explain_question, hfail]

/-- Witness: the amended fallback theorem at a concrete failing generator and
concrete context. -/
theorem C5_generation_fallback_amended_witness :
    (chat llmFail [] bp2 "why".data ctxW5).answer =
      "[Lỗi khi gọi LLM: ".data ++ "boom".data ++
        "]\n\nDựa trên thông tin tìm được:\n".data ++
        (to_prompt_context ctxW5 10).take 500 ++ "...".data ∧
    (explain_question llmFail [] bp2 "q7".data ctxW5).answer =
      "[Lỗi: ".data ++ "boom".data ++ "]".data :=
  C5_generation_fallback_amended llmFail [] bp2 bp2 "why".data "q7".data ctxW5
    "boom".data (fun _ => rfl)

/-! ## User-mistake analyzer (`tools/rag/knowledge/user_analyzer.py`)

Transcripts are insertion-ordered string dicts.  `str(dict)` is modelled for
values without quotes or escapes (the scenario texts), and `0.5 * len` is
compared exactly via doubling.  Python's leading underscore is dropped from
the helper names. -/

/-- The single-quote character of Python's `str(dict)` rendering. -/
def sq : Char := Char.ofNat 39

/-- `ERROR_TYPES` (user_analyzer.py lines 15-26). -/
def ERROR_TYPES : List (List Char × List Char) :=
  [("listening_vocabulary".data, "Không nghe ra từ vựng".data),
   ("listening_similar_sound".data, "Nhầm lẫn âm tương tự".data),
   ("listening_speed".data, "Không theo kịp tốc độ nói".data),
   ("listening_context".data, "Hiểu sai ngữ cảnh".data),
   ("grammar_tense".data, "Sai về thì".data),
   ("grammar_word_form".data, "Sai dạng từ".data),
   ("grammar_article".data, "Sai mạo từ".data),
   ("reading_inference".data, "Suy luận sai".data),
   ("reading_detail".data, "Bỏ sót chi tiết".data),
   ("reading_vocabulary".data, "Không hiểu từ vựng".data)]

/-- Python whitespace recognised by `str.split()`. -/
def isPyWs (c : Char) : Bool :=
  c = ' ' || c = '\t' || c = '\n' || c = '\x0d' || c = '\x0b' || c = '\x0c'

/-- Accumulator loop behind `str.split()`. -/
def splitWsAux : List Char → List Char → List (List Char)
  | [], acc => if acc.isEmpty then [] else [acc.reverse]
  | c :: t, acc =>
    if isPyWs c then
      if acc.isEmpty then splitWsAux t [] else acc.reverse :: splitWsAux t []
    else splitWsAux t (c :: acc)

/-- `str.split()` with no separator: split on whitespace runs, no empties. -/
def splitWs (l : List Char) : List (List Char) := splitWsAux l []

/-- `'x' in d` for a string dict. -/
def dmem (d : List (List Char × List Char)) (k : List Char) : Bool :=
  (d.find? (fun kv => kv.1 == k)).isSome

/-- `d.values()` of a string dict. -/
def dvalues (d : List (List Char × List Char)) : List (List Char) :=
  d.map Prod.snd

/-- `str(d)` of a string dict whose texts contain no quotes or escapes. -/
def pyDictRepr (d : List (List Char × List Char)) : List Char :=
  lbr :: (List.intercalate ", ".data (d.map (fun kv =>
    [sq] ++ kv.1 ++ [sq, ':', ' ', sq] ++ kv.2 ++ [sq])) ++ [rbr])

/-- The skipped common words of `_find_missed_words`. -/
def commonWords : List (List Char) :=
  ["the".data, "a".data, "an".data, "is".data, "are".data, "to".data, "of".data]

/-- `UserMistake._find_missed_words` (user_analyzer.py lines 115-132). -/
def find_missed_words (user_text correct_text : List Char) : List (List Char) :=
  if user_text.isEmpty || correct_text.isEmpty then []
  else
    let user_words := splitWs (toLowerStr user_text)
    let correct_words := splitWs (toLowerStr correct_text)
    (correct_words.filter (fun w =>
      !commonWords.contains w && !user_words.contains w && decide (w.length > 2))).take 5

/-- `UserMistake` (user_analyzer.py lines 29-45). -/
structure UserMistake where
  doc_id : List Char
  user_id : List Char
  test_id : List Char
  question_id : List Char
  part_number : Nat
  user_answer : List Char
  correct_answer : List Char
  user_transcript : Option (List (List Char × List Char))
  correct_transcript : Option (List (List Char × List Char))
  error_type : List Char
  error_analysis : List Char
  timestamp : List Char
  question_text : Option (List Char)
  explanation : Option (List Char)
deriving Repr, DecidableEq

/-- `UserMistake.to_content` (user_analyzer.py lines 47-113); `None` and the
empty dict/string are both falsy, so optional fields are read through
`getD []`. -/
def to_content (m : UserMistake) : List Char :=
  let test_link := "http://localhost:5173/test/".data ++ m.test_id
  let ut := m.user_transcript.getD []
  let ct := m.correct_transcript.getD []
  let qt := m.question_text.getD []
  let ex := m.explanation.getD []
  let parts0 : List (List Char) :=
    ["=== Lỗi sai TOEIC ===".data,
     "Test: [".data ++ m.test_id ++ "](".data ++ test_link ++ ") | Part ".data ++
       natDigs m.part_number ++ " | Câu: ".data ++ m.question_id,
     "User chọn: ".data ++ m.user_answer ++ " | Đáp án đúng: ".data ++ m.correct_answer,
     "Loại lỗi: ".data ++ metaGet ERROR_TYPES m.error_type m.error_type]
  let branchParts : List (List Char) :=
    if m.part_number ≤ 2 ∧ ut ≠ [] ∧ ct ≠ [] then
      ["\n--- So sánh Transcript ---".data] ++
      (if dmem ct "question".data then
        let user_q := metaGet ut "question".data "[không ghi]".data
        let correct_q := metaGet ct "question".data []
        ["Câu hỏi đúng: \"".data ++ correct_q ++ "\"".data,
         "User nghe: \"".data ++ user_q ++ "\"".data] ++
        (let missed := find_missed_words user_q correct_q
         if missed.isEmpty then [] else
           ["Từ nghe thiếu: ".data ++ List.intercalate ", ".data missed])
      else []) ++
      (let correct_text := metaGet ct m.correct_answer []
       let user_text := metaGet ut m.correct_answer "[không ghi]".data
       if correct_text.isEmpty then [] else
         ["\nĐáp án đúng (".data ++ m.correct_answer ++ "): \"".data ++ correct_text ++
            "\"".data,
          "User nghe: \"".data ++ user_text ++ "\"".data] ++
         (let missed := find_missed_words user_text correct_text
          if missed.isEmpty then [] else
            ["Từ nghe thiếu trong đáp án: ".data ++ List.intercalate ", ".data missed])) ++
      (if m.user_answer ≠ m.correct_answer then
        let wrong_correct := metaGet ct m.user_answer []
        let wrong_user := metaGet ut m.user_answer "[không ghi]".data
        if wrong_correct.isEmpty then [] else
          ["\nUser chọn (".data ++ m.user_answer ++ "): \"".data ++ wrong_correct ++ "\"".data,
           "User nghe: \"".data ++ wrong_user ++ "\"".data]
      else [])
    else if (m.part_number = 3 ∨ m.part_number = 4) ∧ ct ≠ [] then
      ["\n--- Transcript ---".data] ++
      (let main_trans := metaGet ct "main".data []
       if main_trans.isEmpty then [] else
         ["Nội dung hội thoại: \"".data ++ main_trans.take 500 ++ "...\"".data])
    else if 5 ≤ m.part_number ∧ qt ≠ [] then
      ["\nCâu hỏi: ".data ++ qt]
    else []
  let analysisParts : List (List Char) :=
    if m.error_analysis.isEmpty then [] else
      ["\n--- Phân tích ---".data, m.error_analysis]
  let explParts : List (List Char) :=
    if ex.isEmpty then [] else ["\n--- Giải thích chính thức ---".data, ex]
  List.intercalate "\n".data (parts0 ++ branchParts ++ analysisParts ++ explParts)

/-- The similar-sound pairs of `_has_similar_sounds`. -/
def similar_pairs : List (List Char × List Char) :=
  [("three".data, "tree".data), ("ship".data, "sheep".data), ("work".data, "walk".data),
   ("right".data, "write".data), ("their".data, "there".data), ("hear".data, "here".data),
   ("won".data, "one".data), ("read".data, "red".data), ("buy".data, "by".data),
   ("sea".data, "see".data), ("no".data, "know".data), ("through".data, "threw".data)]

/-- `UserMistakeAnalyzer._has_similar_sounds` (user_analyzer.py lines 352-366). -/
def has_similar_sounds (t1 t2 : List Char) : Bool :=
  similar_pairs.any (fun p =>
    (hasSub p.1 t1 && hasSub p.2 t2) || (hasSub p.2 t1 && hasSub p.1 t2))

/-- The suffix list of `_are_word_forms`. -/
def wordSuffixes : List (List Char) :=
  ["ly".data, "ness".data, "ment".data, "tion".data, "ing".data, "ed".data,
   "er".data, "est".data]

/-- The rough stem `_are_word_forms` computes for one option. -/
def stemOf (opt : List Char) : List Char :=
  let s := toLowerStr opt
  let s2 := match wordSuffixes.find? (fun suf => suf.isSuffixOf s) with
    | some suf => s.take (s.length - suf.length)
    | none => s
  s2.take 4

/-- Appending into a Python `set` modelled as a duplicate-free list. -/
def addUnique (acc : List (List Char)) (x : List Char) : List (List Char) :=
  if acc.contains x then acc else acc ++ [x]

/-- `UserMistakeAnalyzer._are_word_forms` (user_analyzer.py lines 368-387). -/
def are_word_forms (options : List (List Char)) : Bool :=
  if options.length < 2 then false
  else ((options.map stemOf).foldl addUnique []).length ≤ 2

/-- The two fields of the question dict `_classify_error` reads. -/
structure QDict where
  options : List (List Char)
  text : List Char
deriving Repr, DecidableEq

/-- `UserMistakeAnalyzer._classify_error` (user_analyzer.py lines 305-351); the
trailing default is unreachable for natural part numbers. -/
def classify_error (part_number : Nat) (user_answer correct_answer : List Char)
    (user_transcript correct_transcript : Option (List (List Char × List Char)))
    (question : QDict) : List Char :=
  if part_number ≤ 4 then
    let ut := user_transcript.getD []
    let ct := correct_transcript.getD []
    if ut ≠ [] ∧ ct ≠ [] then
      let user_text := toLowerStr (List.intercalate " ".data (dvalues ut))
      let correct_text := toLowerStr (pyDictRepr ct)
      if has_similar_sounds user_text correct_text then "listening_similar_sound".data
      else if 2 * user_text.length < correct_text.length then "listening_speed".data
      else "listening_vocabulary".data
    else "listening_context".data
  else if part_number = 5 then
    if question.options.length ≥ 4 ∧ are_word_forms question.options then
      "grammar_word_form".data
    else "grammar_tense".data
  else
    let question_text := toLowerStr question.text
    if hasSub "infer".data question_text || hasSub "imply".data question_text then
      "reading_inference".data
    else "reading_detail".data

/-- The scenario's correct transcript. -/
def ctB : List (List Char × List Char) :=
  [("question".data, "Where is the meeting?".data),
   ("A".data, "Down the hall.".data), ("B".data, "At noon.".data)]

/-- The scenario's user transcript. -/
def utB : List (List Char × List Char) :=
  [("question".data, "Where is the meeting?".data), ("B".data, "At noon.".data)]

/-- The scenario's synthesized mistake record. -/
def mistakeB : UserMistake :=
  ⟨"d1".data, "u1".data, "t1".data, "q7".data, 2, "B".data, "A".data,
   some utB, some ctB,
   classify_error 2 "B".data "A".data (some utB) (some ctB) ⟨[], []⟩,
   [], "2024-01-01".data, none, none⟩

/-- C9: the scenario record synthesizes content containing the literal
correct-answer text, and its classified error type is the listening-category
value `listening_speed`, not a grammar or reading value. -/
theorem C9_scenario_classification :
    classify_error 2 "B".data "A".data (some utB) (some ctB) ⟨[], []⟩ =
      "listening_speed".data ∧
    hasSub "Down the hall.".data (to_content mistakeB) = true ∧
    "listening_speed".data ∈ ERROR_TYPES.map Prod.fst ∧
    "listening".data.isPrefixOf "listening_speed".data = true ∧
    "grammar".data.isPrefixOf "listening_speed".data = false ∧
    "reading".data.isPrefixOf "listening_speed".data = false := by
  refine ⟨rfl, rfl, ?_, rfl, rfl, rfl⟩
  decide

end AT86
